import Mathlib

/-!
# Verification of the `AnimateBy` instance-lifecycle scheduler

This file is a shallow embedding of `src/animate-by.directive.ts`, the
animation scheduling state machine of the `angular-animate-by` repository,
together with theorems about its behaviour.

Modelling conventions:

* JavaScript numbers (clocks, durations, `existence`) are modelled as `ℚ`,
  i.e. exact arithmetic.  The single place where IEEE-754 behaviour differs
  observably (division by a zero duration) is modelled separately and
  faithfully by the `JsVal` type at the end of the definitions section.
* Object identity of stack entries (`stackEntry === this.current`) is
  modelled by tagging each entry with a unique numeric `id` drawn from the
  `nextId` counter; `current` stores the id of the current entry.
* The external frame driver (`requestAnimationFrame` / `cancelAnimationFrame`)
  is modelled inside the state: `pending` is the list of driver-side
  outstanding registration tokens, `nextToken` generates fresh tokens
  (starting from 1, since `requestAnimationFrame` ids are nonzero, which
  is what makes the truthiness test `if (this.animId)` equivalent to an
  `Option.isSome` test).  A `tick` event fires all outstanding callbacks.
* The host view container is modelled by the `destroyedViews` log: the id of
  every entry whose view is removed (`viewContainer.remove`) is appended.
* `window` (frame-driver availability) and `inited` are fixed at
  initialisation: in the source, `window` is assigned once in `ngOnInit`,
  which also sets `inited`.
-/

namespace AnimateBy

/-- The per-instance state: `'entering' | 'leaving' | 'here' | 'reverse'`. -/
inductive AState where
  | entering
  | leaving
  | here
  | reverse
deriving DecidableEq, Repr

/-- `interface AnimateByTimings { enter: number; leave: number }`. -/
structure AnimateByTimings where
  enter : ℚ
  leave : ℚ
deriving DecidableEq, Repr

/-- `theDefaultAnimateByTimings = {enter: 1000, leave: 1000}`. -/
def defaultAnimateByTimings : AnimateByTimings := ⟨1000, 1000⟩

/-- The `AnimateByContext<T>` class.  Values (`$implicit`) are modelled as
natural numbers; identity comparison of values becomes equality on `Nat`. -/
structure AnimateByContext where
  value : Nat
  state : AState
  existence : ℚ
  timings : AnimateByTimings
  startTime : Option ℚ
deriving DecidableEq, Repr

/-- The `AnimateByContext` constructor:
`existence = (state === 'here') ? 1 : 0`, `startTime` starts undefined,
and the timings object is copied. -/
def AnimateByContext.make (v : Nat) (st : AState) (tm : AnimateByTimings) :
    AnimateByContext :=
  { value := v
    state := st
    existence := if st = AState.here then 1 else 0
    timings := tm
    startTime := none }

/-- A stack entry (`AnimateByStackEntry`): the context together with a unique
id standing for the object identity of the entry (and of its view). -/
structure Entry where
  id : Nat
  context : AnimateByContext
deriving DecidableEq, Repr

/-- The full state of one `AnimateByDirective` instance, together with the
state of its external collaborators (frame driver and view host). -/
structure DirState where
  stack : List Entry
  current : Option Nat
  window : Bool
  animId : Option Nat
  inited : Bool
  symmetric : Bool
  optTimings : Option AnimateByTimings
  nextId : Nat
  pending : List Nat
  nextToken : Nat
  destroyedViews : List Nat
deriving DecidableEq, Repr

/-- Look up the stack entry a given id refers to (first match, but ids are
unique in every reachable state). -/
def findEntry (s : DirState) (cid : Nat) : Option Entry :=
  s.stack.find? (fun e => e.id == cid)

/-- `scheduleAnimationFrame`: only requests a frame when no registration is
outstanding (`animId === undefined`) and a window is available. -/
def scheduleAnimationFrame (s : DirState) : DirState :=
  if s.animId = none ∧ s.window = true then
    { s with
      animId := some s.nextToken
      pending := s.pending ++ [s.nextToken]
      nextToken := s.nextToken + 1 }
  else s

/-- `removeStackEntry`: find the entry's index, remove the view at that index
(logged in `destroyedViews`), and splice the entry out of the stack.  Callers
only ever pass entries that are present in the stack. -/
def removeStackEntry (cid : Nat) (s : DirState) : DirState :=
  if s.stack.any (fun e => e.id == cid) then
    { s with
      stack := s.stack.eraseP (fun e => e.id == cid)
      destroyedViews := s.destroyedViews ++ [cid] }
  else s

/-- `newCurrent(v)`: create a context (instantly `here` when no window is
available or the directive is not initialised, otherwise `entering`), create
its view, push it, make it current, and schedule a frame unless instant. -/
def newCurrent (v : Nat) (s : DirState) : DirState :=
  let instant : Bool := !s.window || !s.inited
  let context := AnimateByContext.make v
    (if instant then AState.here else AState.entering)
    (s.optTimings.getD defaultAnimateByTimings)
  let entry : Entry := { id := s.nextId, context := context }
  let s1 := { s with
    stack := s.stack ++ [entry]
    current := some s.nextId
    nextId := s.nextId + 1 }
  if instant then s1 else scheduleAnimationFrame s1

/-- Mutate the state field of the stack entry with the given id (the source
mutates the shared context object through the `current` reference). -/
def setContextState (cid : Nat) (st : AState) (s : DirState) : DirState :=
  { s with
    stack := s.stack.map (fun e =>
      if e.id == cid then { e with context := { e.context with state := st } }
      else e) }

/-- `removeCurrent`: with a window, a `here` instance starts leaving, an
`entering` instance is reversed when `symmetric` is set, and otherwise the
instance is left alone; without a window the instance is removed
synchronously.  In all cases `current` is cleared. -/
def removeCurrent (s : DirState) : DirState :=
  match s.current with
  | none => s
  | some cid =>
    let s1 :=
      if s.window then
        match findEntry s cid with
        | some e =>
          if e.context.state = AState.here then
            scheduleAnimationFrame (setContextState cid AState.leaving s)
          else if s.symmetric = true ∧ e.context.state = AState.entering then
            scheduleAnimationFrame (setContextState cid AState.reverse s)
          else s
        | none => s
      else
        removeStackEntry cid s
    { s1 with current := none }

/-- `reverseAnimation(context, clock)`: back-date `startTime` so that the
leave formula starts from the current existence, and switch to leaving. -/
def reverseAnimation (ctx : AnimateByContext) (clock : ℚ) : AnimateByContext :=
  { ctx with
    startTime := some (clock - ctx.timings.leave * (1 - ctx.existence))
    state := AState.leaving }

/-- The result of the tick loop body for one entry: the updated entry, whether
it was pushed onto `toRemove`, and this entry's contribution to
`scheduleAnother`. -/
structure TickResult where
  entry : Entry
  remove : Bool
  another : Bool
deriving DecidableEq, Repr

/-- The body of the `doAnimationFrame` loop, acting on one context.
`isCurrent` is the result of the `stackEntry === this.current` test. -/
def tickContext (isCurrent : Bool) (clock : ℚ) (ctx0 : AnimateByContext) :
    AnimateByContext × Bool × Bool :=
  let ctx1 :=
    if ctx0.state ≠ AState.here ∧ ctx0.startTime = none then
      { ctx0 with startTime := some clock }
    else ctx0
  let ctx2 :=
    if ctx1.state = AState.reverse then reverseAnimation ctx1 clock else ctx1
  let localClock := clock - ctx2.startTime.getD 0
  if ctx2.state = AState.entering then
    let ex := min 1 (localClock / ctx2.timings.enter)
    if 1 ≤ ex then
      if isCurrent then
        ({ ctx2 with existence := ex, state := AState.here, startTime := none },
          false, false)
      else
        ({ ctx2 with existence := ex, state := AState.leaving, startTime := none },
          false, true)
    else
      ({ ctx2 with existence := ex }, false, true)
  else if ctx2.state = AState.leaving then
    let ex := 1 - min 1 (localClock / ctx2.timings.leave)
    if ex ≤ 0 then
      ({ ctx2 with existence := ex }, true, false)
    else
      ({ ctx2 with existence := ex }, false, true)
  else
    (ctx2, false, false)

/-- The loop body of `doAnimationFrame` for one stack entry. -/
def processEntry (current : Option Nat) (clock : ℚ) (e : Entry) : TickResult :=
  let r := tickContext (decide (current = some e.id)) clock e.context
  { entry := { id := e.id, context := r.1 }, remove := r.2.1, another := r.2.2 }

/-- `doAnimationFrame(clock)`: clear `animId`, run the loop body over the
stack, remove the entries collected in `toRemove`, and schedule another frame
when some entry asked for one.  (`cd.markForCheck` has no modelled effect.) -/
def doAnimationFrame (clock : ℚ) (s : DirState) : DirState :=
  let s0 := { s with animId := none }
  let results := s0.stack.map (processEntry s0.current clock)
  let scheduleAnother := results.any (fun r => r.another)
  let toRemove := (results.filter (fun r => r.remove)).map (fun r => r.entry.id)
  let s1 := { s0 with stack := results.map (fun r => r.entry) }
  let s2 := toRemove.foldl (fun st cid => removeStackEntry cid st) s1
  if scheduleAnother then scheduleAnimationFrame s2 else s2

/-- `ngOnDestroy`: cancel the outstanding frame registration, if any (the
truthiness test `if (this.animId)` is an `isSome` test because registration
ids are nonzero).  Nothing else happens: neither `stack` nor the views are
touched. -/
def ngOnDestroy (s : DirState) : DirState :=
  match s.animId with
  | some t => { s with pending := s.pending.erase t }
  | none => s

/-- The `animateBy` input setter: compare the new value with the current
instance's value by identity; on change retire the current instance (if any)
and create a new one (if the value is defined). -/
def setValue (v : Option Nat) (s : DirState) : DirState :=
  let co := s.current.bind (fun cid =>
    (findEntry s cid).map (fun e => e.context.value))
  if co = v then s
  else
    let s1 := if s.current.isSome then removeCurrent s else s
    match v with
    | none => s1
    | some x => newCurrent x s1

/-- The external stimuli a directive instance can receive after `ngOnInit`:
input changes, animation frames, and destruction. -/
inductive Event where
  | set (v : Option Nat)
  | tick (c : ℚ)
  | destroy
deriving DecidableEq, Repr

/-- One external event.  A frame tick fires every outstanding driver-side
callback (each one is the same `(clock) => this.doAnimationFrame(clock)`
closure) and consumes the registrations; when nothing is registered the
frame passes without effect. -/
def step (e : Event) (s : DirState) : DirState :=
  match e with
  | Event.set v => setValue v s
  | Event.tick c =>
    if s.pending = [] then s
    else (doAnimationFrame c)^[s.pending.length] { s with pending := [] }
  | Event.destroy => ngOnDestroy s

/-- The directive state right after `ngOnInit`: empty stack, no current
instance, no registration outstanding, and a fixed configuration. -/
def initState (window : Bool) (symmetric : Bool)
    (optTimings : Option AnimateByTimings) : DirState :=
  { stack := []
    current := none
    window := window
    animId := none
    inited := true
    symmetric := symmetric
    optTimings := optTimings
    nextId := 0
    pending := []
    nextToken := 1
    destroyedViews := [] }

/-- Run a sequence of events. -/
def run (es : List Event) (s : DirState) : DirState :=
  es.foldl (fun st e => step e st) s

/-- Frame timestamps are monotonically increasing: every tick's clock is
strictly greater than the previous one (and greater than `lo`). -/
def clocksOK (lo : ℚ) : List Event → Bool
  | [] => true
  | Event.tick c :: es => decide (lo < c) && clocksOK c es
  | _ :: es => clocksOK lo es

/-- Number of stack entries in state `here`. -/
def countHere (s : DirState) : Nat :=
  (s.stack.filter (fun e => decide (e.context.state = AState.here))).length

/-- Every stack entry's existence lies in the unit interval. -/
def existenceInUnit (s : DirState) : Bool :=
  s.stack.all (fun e =>
    decide (0 ≤ e.context.existence) && decide (e.context.existence ≤ 1))

/-- Every stack entry is fully `here` with existence 1. -/
def allHereFull (s : DirState) : Bool :=
  s.stack.all (fun e =>
    decide (e.context.state = AState.here) && decide (e.context.existence = 1))

/-- Positive durations, as required of the configuration surface. -/
def goodTimings (tm : AnimateByTimings) : Prop := 0 < tm.enter ∧ 0 < tm.leave

instance (tm : AnimateByTimings) : Decidable (goodTimings tm) :=
  inferInstanceAs (Decidable (And _ _))

/-- Ordering of entry ids, used to state uniqueness of ids in the stack. -/
def idLt (a b : Entry) : Prop := a.id < b.id

/-- The fields fixed at `ngOnInit` time (window, inited) and the
configuration (symmetric flag, timings): no operation modifies them. -/
def sameConfig (s t : DirState) : Prop :=
  t.window = s.window ∧ t.inited = s.inited ∧
  t.symmetric = s.symmetric ∧ t.optTimings = s.optTimings

/-- Invariant of every reachable state: stack ids are strictly increasing
(hence unique) and below `nextId`; a `here` entry is the current entry, fully
present, with no `startTime`; the driver holds at most the registration
recorded in `animId`; and without a window nothing is ever scheduled and all
entries are instant `here` instances. -/
structure InvA (s : DirState) : Prop where
  idsSorted : s.stack.Pairwise idLt
  idsLt : ∀ e ∈ s.stack, e.id < s.nextId
  hereProps : ∀ e ∈ s.stack, e.context.state = AState.here →
      s.current = some e.id ∧ e.context.existence = 1 ∧
        e.context.startTime = none
  pendingLink : ∀ t, s.animId = some t → s.pending = [] ∨ s.pending = [t]
  pendingNone : s.animId = none → s.pending = []
  noWindow : s.window = false →
      s.animId = none ∧ s.pending = [] ∧ s.nextToken = 1 ∧
        ∀ e ∈ s.stack, e.context.state = AState.here

/-- Numeric per-context invariant relative to a clock lower bound `lo`:
existence is in the unit interval, any recorded `startTime` is at most `lo`,
and the captured durations are positive. -/
def ctxOK (lo : ℚ) (ctx : AnimateByContext) : Prop :=
  0 ≤ ctx.existence ∧ ctx.existence ≤ 1 ∧
  (∀ t0, ctx.startTime = some t0 → t0 ≤ lo) ∧ goodTimings ctx.timings

/-- Numeric invariant of a whole state relative to clock lower bound `lo`. -/
def InvB (lo : ℚ) (s : DirState) : Prop := ∀ e ∈ s.stack, ctxOK lo e.context

/-- The clock lower bound after running a sequence of events: the clock of
the last tick, or the initial bound when no tick occurs. -/
def finalClock (lo : ℚ) : List Event → ℚ
  | [] => lo
  | Event.tick c :: es => finalClock c es
  | _ :: es => finalClock lo es

/-! ### An IEEE-754-faithful model of the progress formulas

The main model above uses exact rational arithmetic, which agrees with
JavaScript number semantics on every operation the directive performs as
long as durations are nonzero.  With a zero duration the tick formulas
divide by zero, where JavaScript produces `NaN` (for `0/0`) or `Infinity`
(for `x/0`, `x > 0`) instead of the `x/0 = 0` convention of `ℚ`.  The
following type models exactly the values that can flow through
`Math.min(1, localClock / duration)` and `1 - Math.min(1, ...)`. -/

/-- A JavaScript number: a finite value, `NaN`, or a signed infinity. -/
inductive JsVal where
  | num (q : ℚ)
  | nan
  | posInf
  | negInf
deriving DecidableEq, Repr

/-- IEEE-754 division for the operand shapes reachable here (both operands
finite, as `localClock` and the durations always are): `0/0 = NaN`,
`x/0 = ±Infinity` for `x ≠ 0`, ordinary division otherwise. -/
def jsDiv (a b : JsVal) : JsVal :=
  match a, b with
  | JsVal.num x, JsVal.num y =>
    if y = 0 then
      if x = 0 then JsVal.nan
      else if 0 < x then JsVal.posInf
      else JsVal.negInf
    else JsVal.num (x / y)
  | _, _ => JsVal.nan

/-- `Math.min`: returns `NaN` if either argument is `NaN`. -/
def jsMin (a b : JsVal) : JsVal :=
  match a, b with
  | JsVal.nan, _ => JsVal.nan
  | _, JsVal.nan => JsVal.nan
  | JsVal.negInf, _ => JsVal.negInf
  | _, JsVal.negInf => JsVal.negInf
  | JsVal.posInf, y => y
  | x, JsVal.posInf => x
  | JsVal.num x, JsVal.num y => JsVal.num (min x y)

/-- `1 - x` on JavaScript numbers. -/
def jsOneSub (a : JsVal) : JsVal :=
  match a with
  | JsVal.num x => JsVal.num (1 - x)
  | JsVal.nan => JsVal.nan
  | JsVal.posInf => JsVal.negInf
  | JsVal.negInf => JsVal.posInf

/-- Line 152 of the source under IEEE-754 semantics:
`context.existence = Math.min(1, localClock / context.timings.enter)`. -/
def enteringExistence (localClock enter : ℚ) : JsVal :=
  jsMin (JsVal.num 1) (jsDiv (JsVal.num localClock) (JsVal.num enter))

/-- Line 165 of the source under IEEE-754 semantics:
`context.existence = 1 - Math.min(1, localClock / context.timings.leave)`. -/
def leavingExistence (localClock leave : ℚ) : JsVal :=
  jsOneSub (jsMin (JsVal.num 1) (jsDiv (JsVal.num localClock) (JsVal.num leave)))

/-! ### Basic lemmas on stacks of entries with distinct ids -/

theorem entry_eq_of_id {l : List Entry} {a b : Entry}
    (hpw : l.Pairwise idLt) (ha : a ∈ l) (hb : b ∈ l) (h : a.id = b.id) :
    a = b := by
  induction l with
  | nil => cases ha
  | cons x t ih =>
    rcases List.pairwise_cons.mp hpw with ⟨hx, ht⟩
    rcases List.mem_cons.mp ha with ha' | ha' <;>
      rcases List.mem_cons.mp hb with hb' | hb'
    · rw [ha', hb']
    · exact absurd h (by subst ha'; exact Nat.ne_of_lt (hx b hb'))
    · exact absurd h.symm (by subst hb'; exact Nat.ne_of_lt (hx a ha'))
    · exact ih ht ha' hb'

theorem id_ne_of_mem_eraseP {l : List Entry} {cid : Nat}
    (hpw : l.Pairwise idLt) :
    ∀ a ∈ l.eraseP (fun e => e.id == cid), a.id ≠ cid := by
  induction l with
  | nil => intro a ha; cases ha
  | cons x t ih =>
    rcases List.pairwise_cons.mp hpw with ⟨hx, ht⟩
    intro a ha
    by_cases hxc : (x.id == cid) = true
    · rw [List.eraseP_cons_of_pos (l := t) (p := fun e => e.id == cid) hxc] at ha
      have hlt : x.id < a.id := hx a ha
      have hxid : x.id = cid := by simpa using hxc
      intro hac
      rw [hxid, hac] at hlt
      exact lt_irrefl _ hlt
    · rw [List.eraseP_cons_of_neg (l := t) (p := fun e => e.id == cid)
        (by simpa using hxc)] at ha
      rcases List.mem_cons.mp ha with rfl | ha'
      · simpa using hxc
      · exact ih ht a ha'

theorem findEntry_spec {s : DirState} {cid : Nat} {e : Entry}
    (h : findEntry s cid = some e) : e ∈ s.stack ∧ e.id = cid := by
  refine ⟨List.mem_of_find?_eq_some h, ?_⟩
  have := List.find?_some h
  simpa using this

theorem findEntry_isSome_of_mem {s : DirState} {e : Entry}
    (he : e ∈ s.stack) : (findEntry s e.id).isSome := by
  rw [findEntry, List.find?_isSome]
  exact ⟨e, he, by simp⟩

/-! ### The configuration fields never change -/

theorem sameConfig_refl (s : DirState) : sameConfig s s := ⟨rfl, rfl, rfl, rfl⟩

theorem sameConfig_trans {s t u : DirState}
    (h1 : sameConfig s t) (h2 : sameConfig t u) : sameConfig s u :=
  ⟨h2.1.trans h1.1, h2.2.1.trans h1.2.1, h2.2.2.1.trans h1.2.2.1,
    h2.2.2.2.trans h1.2.2.2⟩

theorem sameConfig_scheduleAnimationFrame (s : DirState) :
    sameConfig s (scheduleAnimationFrame s) := by
  unfold scheduleAnimationFrame
  split <;> exact ⟨rfl, rfl, rfl, rfl⟩

theorem sameConfig_removeStackEntry (cid : Nat) (s : DirState) :
    sameConfig s (removeStackEntry cid s) := by
  unfold removeStackEntry
  split <;> exact ⟨rfl, rfl, rfl, rfl⟩

theorem sameConfig_setContextState (cid : Nat) (st : AState) (s : DirState) :
    sameConfig s (setContextState cid st s) := ⟨rfl, rfl, rfl, rfl⟩

theorem sameConfig_newCurrent (v : Nat) (s : DirState) :
    sameConfig s (newCurrent v s) := by
  show sameConfig s (if (!s.window || !s.inited) = true then _
    else scheduleAnimationFrame _)
  split
  · exact ⟨rfl, rfl, rfl, rfl⟩
  · exact sameConfig_trans (s := s) ⟨rfl, rfl, rfl, rfl⟩
      (sameConfig_scheduleAnimationFrame _)

theorem sameConfig_currentNone (s s1 : DirState) (h : sameConfig s s1) :
    sameConfig s { s1 with current := none } :=
  ⟨h.1, h.2.1, h.2.2.1, h.2.2.2⟩

theorem sameConfig_removeCurrent (s : DirState) :
    sameConfig s (removeCurrent s) := by
  unfold removeCurrent
  cases hc : s.current with
  | none => exact sameConfig_refl s
  | some cid =>
    apply sameConfig_currentNone
    split
    · split
      · split
        · exact sameConfig_trans (sameConfig_setContextState _ _ _)
            (sameConfig_scheduleAnimationFrame _)
        · split
          · exact sameConfig_trans (sameConfig_setContextState _ _ _)
              (sameConfig_scheduleAnimationFrame _)
          · exact sameConfig_refl s
      · exact sameConfig_refl s
    · exact sameConfig_removeStackEntry _ _

theorem sameConfig_foldRemove (l : List Nat) :
    ∀ s : DirState,
      sameConfig s (l.foldl (fun st cid => removeStackEntry cid st) s) := by
  induction l with
  | nil => intro s; exact sameConfig_refl s
  | cons x t ih =>
    intro s
    exact sameConfig_trans (sameConfig_removeStackEntry x s) (ih _)

theorem sameConfig_doAnimationFrame (c : ℚ) (s : DirState) :
    sameConfig s (doAnimationFrame c s) := by
  unfold doAnimationFrame
  dsimp only
  split
  · apply sameConfig_trans _ (sameConfig_scheduleAnimationFrame _)
    apply sameConfig_trans _ (sameConfig_foldRemove _ _)
    exact ⟨rfl, rfl, rfl, rfl⟩
  · apply sameConfig_trans _ (sameConfig_foldRemove _ _)
    exact ⟨rfl, rfl, rfl, rfl⟩

theorem sameConfig_iterate_doFrame (c : ℚ) (n : Nat) :
    ∀ s : DirState, sameConfig s ((doAnimationFrame c)^[n] s) := by
  induction n with
  | zero => intro s; exact sameConfig_refl s
  | succ n ih =>
    intro s
    rw [Function.iterate_succ_apply]
    exact sameConfig_trans (sameConfig_doAnimationFrame c s) (ih _)

theorem sameConfig_ngOnDestroy (s : DirState) :
    sameConfig s (ngOnDestroy s) := by
  unfold ngOnDestroy
  split <;> exact ⟨rfl, rfl, rfl, rfl⟩

theorem sameConfig_setValue (v : Option Nat) (s : DirState) :
    sameConfig s (setValue v s) := by
  unfold setValue
  dsimp only
  have h1 : sameConfig s (if s.current.isSome = true then removeCurrent s else s) := by
    split
    · exact sameConfig_removeCurrent s
    · exact sameConfig_refl s
  split
  · exact sameConfig_refl s
  · cases v
    · exact h1
    · exact sameConfig_trans h1 (sameConfig_newCurrent _ _)

theorem sameConfig_step (e : Event) (s : DirState) :
    sameConfig s (step e s) := by
  cases e with
  | set v => exact sameConfig_setValue v s
  | tick c =>
    show sameConfig s (if s.pending = [] then s
      else (doAnimationFrame c)^[s.pending.length] { s with pending := [] })
    split
    · exact sameConfig_refl s
    · apply sameConfig_trans _ (sameConfig_iterate_doFrame _ _ _)
      exact ⟨rfl, rfl, rfl, rfl⟩
  | destroy => exact sameConfig_ngOnDestroy s

theorem sameConfig_run (es : List Event) :
    ∀ s : DirState, sameConfig s (run es s) := by
  induction es with
  | nil => intro s; exact sameConfig_refl s
  | cons e t ih =>
    intro s
    exact sameConfig_trans (sameConfig_step e s) (ih _)

/-! ### Simp lemmas for the context constructor -/

@[simp]
theorem make_state (v : Nat) (st : AState) (tm : AnimateByTimings) :
    (AnimateByContext.make v st tm).state = st := rfl

@[simp]
theorem make_startTime (v : Nat) (st : AState) (tm : AnimateByTimings) :
    (AnimateByContext.make v st tm).startTime = none := rfl

@[simp]
theorem make_timings (v : Nat) (st : AState) (tm : AnimateByTimings) :
    (AnimateByContext.make v st tm).timings = tm := rfl

@[simp]
theorem make_value (v : Nat) (st : AState) (tm : AnimateByTimings) :
    (AnimateByContext.make v st tm).value = v := rfl

theorem make_existence (v : Nat) (st : AState) (tm : AnimateByTimings) :
    (AnimateByContext.make v st tm).existence =
      if st = AState.here then 1 else 0 := rfl

theorem pairwise_map_id_preserving {f : Entry → Entry}
    (hf : ∀ e, (f e).id = e.id) {l : List Entry} (h : l.Pairwise idLt) :
    (l.map f).Pairwise idLt := by
  rw [List.pairwise_map]
  refine h.imp (fun hab => ?_)
  unfold idLt at hab ⊢
  rw [hf, hf]
  exact hab

/-! ### The structural invariant of reachable directive states -/

theorem nohere_of_current_none {s : DirState} (h : InvA s)
    (hc : s.current = none) :
    ∀ e ∈ s.stack, e.context.state ≠ AState.here := by
  intro e he hst
  have := (h.hereProps e he hst).1
  rw [hc] at this
  cases this

theorem invA_scheduleAnimationFrame {s : DirState} (h : InvA s) :
    InvA (scheduleAnimationFrame s) := by
  unfold scheduleAnimationFrame
  split
  case isTrue hc =>
    obtain ⟨h1, h2⟩ := hc
    refine ⟨h.idsSorted, h.idsLt, h.hereProps, ?_, ?_, ?_⟩
    · intro t ht
      simp only [Option.some.injEq] at ht
      right
      rw [h.pendingNone h1, ht]
      rfl
    · intro hnone; cases hnone
    · intro hw; rw [hw] at h2; cases h2
  case isFalse => exact h

theorem removeStackEntry_stack_sublist (cid : Nat) (s : DirState) :
    (removeStackEntry cid s).stack.Sublist s.stack := by
  unfold removeStackEntry
  split
  · exact List.eraseP_sublist _
  · exact List.Sublist.refl _

theorem invA_removeStackEntry {s : DirState} (h : InvA s) (cid : Nat) :
    InvA (removeStackEntry cid s) := by
  unfold removeStackEntry
  split
  · have hmem : ∀ e ∈ s.stack.eraseP (fun e => e.id == cid), e ∈ s.stack :=
      fun e he => (List.eraseP_sublist _).subset he
    exact ⟨h.idsSorted.sublist (List.eraseP_sublist _),
      fun e he => h.idsLt e (hmem e he),
      fun e he hst => h.hereProps e (hmem e he) hst,
      h.pendingLink, h.pendingNone,
      fun hw => ⟨(h.noWindow hw).1, (h.noWindow hw).2.1, (h.noWindow hw).2.2.1,
        fun e he => (h.noWindow hw).2.2.2 e (hmem e he)⟩⟩
  · exact h

theorem invA_foldRemove (l : List Nat) :
    ∀ s : DirState, InvA s →
      InvA (l.foldl (fun st cid => removeStackEntry cid st) s) := by
  induction l with
  | nil => intro s h; exact h
  | cons x t ih => intro s h; exact ih _ (invA_removeStackEntry h x)

theorem setContextState_stack (cid : Nat) (st : AState) (s : DirState) :
    (setContextState cid st s).stack = s.stack.map (fun e =>
      if e.id == cid then { e with context := { e.context with state := st } }
      else e) := rfl

theorem invA_setContextState {s : DirState} (h : InvA s) {cid : Nat}
    {st : AState} (hst : st ≠ AState.here) (hw : s.window = true) :
    InvA (setContextState cid st s) := by
  have hid : ∀ e : Entry,
      ((fun e : Entry => if e.id == cid then
        { e with context := { e.context with state := st } } else e) e).id
        = e.id := by
    intro e
    dsimp only
    split <;> rfl
  refine ⟨pairwise_map_id_preserving hid h.idsSorted, ?_, ?_,
    h.pendingLink, h.pendingNone, ?_⟩
  · intro e he
    rw [setContextState_stack, List.mem_map] at he
    obtain ⟨a, ha, rfl⟩ := he
    rw [hid]
    exact h.idsLt a ha
  · intro e he hst'
    rw [setContextState_stack, List.mem_map] at he
    obtain ⟨a, ha, rfl⟩ := he
    by_cases hac : (a.id == cid) = true
    · rw [if_pos hac] at hst' ⊢
      exact absurd hst' hst
    · rw [if_neg hac] at hst' ⊢
      exact h.hereProps a ha hst'
  · intro hw'
    have hw2 : s.window = false := hw'
    rw [hw2] at hw
    cases hw

theorem invA_clear_current {s1 : DirState} (h : InvA s1)
    (hnh : ∀ e ∈ s1.stack, e.context.state ≠ AState.here) :
    InvA { s1 with current := none } := by
  refine ⟨h.idsSorted, h.idsLt, ?_, h.pendingLink, h.pendingNone, ?_⟩
  · intro e he hst
    exact absurd hst (hnh e he)
  · intro hw
    exact h.noWindow hw

theorem nohere_branch {s : DirState} (h : InvA s) {cid : Nat}
    (hc : s.current = some cid) (st : AState) (hst : st ≠ AState.here) :
    ∀ a ∈ (scheduleAnimationFrame (setContextState cid st s)).stack,
      a.context.state ≠ AState.here := by
  intro a ha
  have ha' : a ∈ (setContextState cid st s).stack := by
    unfold scheduleAnimationFrame at ha
    split at ha <;> exact ha
  rw [setContextState_stack, List.mem_map] at ha'
  obtain ⟨b, hb, rfl⟩ := ha'
  by_cases hbc : (b.id == cid) = true
  · rw [if_pos hbc]
    exact hst
  · rw [if_neg hbc]
    intro hbh
    have hcur := (h.hereProps b hb hbh).1
    rw [hc] at hcur
    have : b.id = cid := by
      have := Option.some.injEq cid b.id ▸ hcur
      simpa using hcur.symm
    exact hbc (by simp [this])

theorem removeCurrent_spec {s : DirState} (h : InvA s) :
    InvA (removeCurrent s) ∧ (removeCurrent s).current = none ∧
      ∀ e ∈ (removeCurrent s).stack, e.context.state ≠ AState.here := by
  unfold removeCurrent
  cases hc : s.current with
  | none => exact ⟨h, hc, nohere_of_current_none h hc⟩
  | some cid =>
    suffices hgoal : ∀ s1 : DirState, InvA s1 →
        (∀ e ∈ s1.stack, e.context.state ≠ AState.here) →
        InvA { s1 with current := none } ∧
          ({ s1 with current := none } : DirState).current = none ∧
          ∀ e ∈ ({ s1 with current := none } : DirState).stack,
            e.context.state ≠ AState.here by
      dsimp only
      by_cases hw : s.window = true
      · rw [if_pos hw]
        cases hfind : findEntry s cid with
        | some e =>
          obtain ⟨hemem, heid⟩ := findEntry_spec hfind
          dsimp only
          by_cases hhere : e.context.state = AState.here
          · rw [if_pos hhere]
            exact hgoal _
              (invA_scheduleAnimationFrame (invA_setContextState h
                (fun hcon => by cases hcon) hw))
              (nohere_branch h hc _ (fun hcon => by cases hcon))
          · rw [if_neg hhere]
            by_cases hsym : s.symmetric = true ∧
                e.context.state = AState.entering
            · rw [if_pos hsym]
              exact hgoal _
                (invA_scheduleAnimationFrame (invA_setContextState h
                  (fun hcon => by cases hcon) hw))
                (nohere_branch h hc _ (fun hcon => by cases hcon))
            · rw [if_neg hsym]
              refine hgoal s h ?_
              intro a ha hah
              have hcur := (h.hereProps a ha hah).1
              rw [hc] at hcur
              have haid : a.id = cid := by simpa using hcur.symm
              have : a = e := entry_eq_of_id h.idsSorted ha hemem
                (haid.trans heid.symm)
              rw [this] at hah
              exact hhere hah
        | none =>
          refine hgoal s h ?_
          intro a ha hah
          have hcur := (h.hereProps a ha hah).1
          rw [hc] at hcur
          have haid : a.id = cid := by simpa using hcur.symm
          have := findEntry_isSome_of_mem ha
          rw [haid, hfind] at this
          cases this
      · rw [if_neg hw]
        refine hgoal _ (invA_removeStackEntry h cid) ?_
        intro a ha hah
        have ha' := (removeStackEntry_stack_sublist cid s).subset ha
        have hcur := (h.hereProps a ha' hah).1
        rw [hc] at hcur
        have haid : a.id = cid := by simpa using hcur.symm
        unfold removeStackEntry at ha
        split at ha
        · exact id_ne_of_mem_eraseP h.idsSorted a ha haid
        next hany =>
          exact hany (List.any_eq_true.mpr ⟨a, ha, by simp [haid]⟩)
    intro s1 h1 hnh1
    exact ⟨invA_clear_current h1 hnh1, rfl, hnh1⟩

theorem invA_newCurrent {s : DirState} (h : InvA s)
    (hnh : ∀ e ∈ s.stack, e.context.state ≠ AState.here) (v : Nat) :
    InvA (newCurrent v s) := by
  unfold newCurrent
  dsimp only
  have hpw : ∀ ctx : AnimateByContext,
      (s.stack ++ [Entry.mk s.nextId ctx]).Pairwise idLt := by
    intro ctx
    rw [List.pairwise_append]
    refine ⟨h.idsSorted, List.pairwise_singleton _ _, ?_⟩
    intro a ha b hb
    rw [List.mem_singleton] at hb
    rw [hb]
    exact h.idsLt a ha
  have hlt : ∀ ctx : AnimateByContext,
      ∀ e ∈ s.stack ++ [Entry.mk s.nextId ctx], e.id < s.nextId + 1 := by
    intro ctx e he
    rcases List.mem_append.mp he with he' | he'
    · exact Nat.lt_succ_of_lt (h.idsLt e he')
    · rw [List.mem_singleton] at he'
      rw [he']
      exact Nat.lt_succ_self _
  by_cases hinstant : (!s.window || !s.inited) = true
  · rw [if_pos hinstant]
    refine ⟨hpw _, hlt _, ?_, h.pendingLink, h.pendingNone, ?_⟩
    · intro e he hst
      rcases List.mem_append.mp he with he' | he'
      · exact absurd hst (hnh e he')
      · rw [List.mem_singleton] at he'
        rw [he']
        refine ⟨rfl, ?_, rfl⟩
        simp [make_existence, hinstant]
    · intro hw
      refine ⟨(h.noWindow hw).1, (h.noWindow hw).2.1,
        (h.noWindow hw).2.2.1, ?_⟩
      intro e he
      rcases List.mem_append.mp he with he' | he'
      · exact absurd ((h.noWindow hw).2.2.2 e he') (hnh e he')
      · rw [List.mem_singleton] at he'
        rw [he']
        simp [hinstant]
  · rw [if_neg hinstant]
    have hwi : s.window = true ∧ s.inited = true := by
      have hbf : (!s.window || !s.inited) = false :=
        Bool.not_eq_true _ |>.mp hinstant
      simpa using hbf
    apply invA_scheduleAnimationFrame
    refine ⟨hpw _, hlt _, ?_, h.pendingLink, h.pendingNone, ?_⟩
    · intro e he hst
      rcases List.mem_append.mp he with he' | he'
      · exact absurd hst (hnh e he')
      · rw [List.mem_singleton] at he'
        rw [he'] at hst
        simp only at hst
        rw [if_neg (by rw [Bool.not_eq_true] at hinstant; simp [hinstant])] at hst
        cases hst
    · intro hw
      rw [hwi.1] at hw
      cases hw

theorem invA_setValue (v : Option Nat) {s : DirState} (h : InvA s) :
    InvA (setValue v s) := by
  unfold setValue
  dsimp only
  split
  · exact h
  · have hs1 : InvA (if s.current.isSome = true then removeCurrent s else s) ∧
        ∀ e ∈ (if s.current.isSome = true then removeCurrent s
          else s).stack, e.context.state ≠ AState.here := by
      split
      case isTrue =>
        rcases removeCurrent_spec h with ⟨h1, _, h3⟩
        exact ⟨h1, h3⟩
      case isFalse hcur =>
        have hnone : s.current = none :=
          Option.not_isSome_iff_eq_none.mp (by simpa using hcur)
        exact ⟨h, nohere_of_current_none h hnone⟩
    cases v
    · exact hs1.1
    · exact invA_newCurrent hs1.1 hs1.2 _

/-! ### Normal forms of the tick loop body, one per instance state -/

theorem tickContext_of_here (b : Bool) (c : ℚ) (ctx : AnimateByContext)
    (hst : ctx.state = AState.here) :
    tickContext b c ctx = (ctx, false, false) := by
  simp [tickContext, hst]

theorem tickContext_entering (b : Bool) (c : ℚ) (ctx : AnimateByContext)
    (hst : ctx.state = AState.entering) :
    tickContext b c ctx =
      (let t0 := ctx.startTime.getD c
       let ex := min 1 ((c - t0) / ctx.timings.enter)
       if 1 ≤ ex then
         if b then
           ({ ctx with
               existence := ex
               state := AState.here
               startTime := none }, false, false)
         else
           ({ ctx with
               existence := ex
               state := AState.leaving
               startTime := none }, false, true)
       else
         ({ ctx with existence := ex, startTime := some t0 }, false, true)) := by
  cases hst0 : ctx.startTime with
  | none => simp [tickContext, hst, hst0]
  | some t0 => simp [tickContext, hst, hst0]

theorem tickContext_leaving (b : Bool) (c : ℚ) (ctx : AnimateByContext)
    (hst : ctx.state = AState.leaving) :
    tickContext b c ctx =
      (let t0 := ctx.startTime.getD c
       let ex := 1 - min 1 ((c - t0) / ctx.timings.leave)
       if ex ≤ 0 then
         ({ ctx with existence := ex, startTime := some t0 }, true, false)
       else
         ({ ctx with existence := ex, startTime := some t0 }, false, true)) := by
  cases hst0 : ctx.startTime with
  | none => simp [tickContext, hst, hst0]
  | some t0 => simp [tickContext, hst, hst0]

theorem tickContext_reverse (b : Bool) (c : ℚ) (ctx : AnimateByContext)
    (hst : ctx.state = AState.reverse) :
    tickContext b c ctx =
      (let t0 := c - ctx.timings.leave * (1 - ctx.existence)
       let ex := 1 - min 1 ((c - t0) / ctx.timings.leave)
       if ex ≤ 0 then
         ({ ctx with
             state := AState.leaving
             existence := ex
             startTime := some t0 }, true, false)
       else
         ({ ctx with
             state := AState.leaving
             existence := ex
             startTime := some t0 }, false, true)) := by
  cases hst0 : ctx.startTime with
  | none => simp [tickContext, reverseAnimation, hst, hst0]
  | some t0 => simp [tickContext, reverseAnimation, hst, hst0]

theorem tickContext_here_elim {b : Bool} {c : ℚ} {ctx : AnimateByContext}
    (h : (tickContext b c ctx).1.state = AState.here) :
    (ctx.state = AState.here ∧ tickContext b c ctx = (ctx, false, false)) ∨
    (b = true ∧ (tickContext b c ctx).1.existence = 1 ∧
      (tickContext b c ctx).1.startTime = none) := by
  cases hst : ctx.state with
  | here => exact Or.inl ⟨rfl, tickContext_of_here b c ctx hst⟩
  | entering =>
    rw [tickContext_entering b c ctx hst] at h ⊢
    dsimp only at h ⊢
    by_cases h1 : 1 ≤ min 1 ((c - ctx.startTime.getD c) / ctx.timings.enter)
    · rw [if_pos h1] at h ⊢
      cases b
      · rw [if_neg (by decide)] at h
        exact absurd (show AState.leaving = AState.here from h) (by decide)
      · rw [if_pos rfl] at h ⊢
        exact Or.inr ⟨rfl, le_antisymm (min_le_left _ _) h1, rfl⟩
    · rw [if_neg h1] at h
      have h' : ctx.state = AState.here := h
      rw [hst] at h'
      cases h'
  | leaving =>
    rw [tickContext_leaving b c ctx hst] at h
    dsimp only at h
    by_cases h0 : (1 - min 1 ((c - ctx.startTime.getD c) /
        ctx.timings.leave)) ≤ 0
    · rw [if_pos h0] at h
      have h' : ctx.state = AState.here := h
      rw [hst] at h'
      cases h'
    · rw [if_neg h0] at h
      have h' : ctx.state = AState.here := h
      rw [hst] at h'
      cases h'
  | reverse =>
    rw [tickContext_reverse b c ctx hst] at h
    dsimp only at h
    by_cases h0 : (1 - min 1 ((c - (c - ctx.timings.leave *
        (1 - ctx.existence))) / ctx.timings.leave)) ≤ 0
    · rw [if_pos h0] at h
      exact absurd (show AState.leaving = AState.here from h) (by decide)
    · rw [if_neg h0] at h
      exact absurd (show AState.leaving = AState.here from h) (by decide)

theorem processEntry_id (cur : Option Nat) (c : ℚ) (e : Entry) :
    (processEntry cur c e).entry.id = e.id := rfl

/-! ### Invariant preservation by `doAnimationFrame`, `step`, `run` -/

theorem invA_doAnimationFrame {s : DirState} (h : InvA s)
    (hp : s.pending = []) (c : ℚ) : InvA (doAnimationFrame c s) := by
  unfold doAnimationFrame
  dsimp only
  have hstack1 : InvA { s with
      animId := none
      stack := (s.stack.map (processEntry s.current c)).map
        (fun r => r.entry) } := by
    rw [List.map_map]
    refine ⟨?_, ?_, ?_, ?_, ?_, ?_⟩
    · exact pairwise_map_id_preserving
        (f := (fun r : TickResult => r.entry) ∘ processEntry s.current c)
        (fun e => rfl) h.idsSorted
    · intro e he
      rw [List.mem_map] at he
      obtain ⟨a, ha, rfl⟩ := he
      exact h.idsLt a ha
    · intro e he hst
      rw [List.mem_map] at he
      obtain ⟨a, ha, rfl⟩ := he
      rcases tickContext_here_elim hst with ⟨hah, heq⟩ | ⟨hb, hex, hst0⟩
      · have hctx : (tickContext (decide (s.current = some a.id)) c
            a.context).1 = a.context := by rw [heq]
        dsimp only [Function.comp, processEntry]
        rw [hctx]
        exact h.hereProps a ha hah
      · exact ⟨of_decide_eq_true hb, hex, hst0⟩
    · intro t ht; cases ht
    · intro _; exact hp
    · intro hw
      refine ⟨rfl, hp, (h.noWindow hw).2.2.1, ?_⟩
      intro e he
      rw [List.mem_map] at he
      obtain ⟨a, ha, rfl⟩ := he
      have hah := (h.noWindow hw).2.2.2 a ha
      dsimp only [Function.comp, processEntry]
      rw [tickContext_of_here _ _ _ hah]
      exact hah
  split
  · exact invA_scheduleAnimationFrame (invA_foldRemove _ _ hstack1)
  · exact invA_foldRemove _ _ hstack1

theorem invA_step (e : Event) {s : DirState} (h : InvA s) :
    InvA (step e s) := by
  cases e with
  | set v => exact invA_setValue v h
  | tick c =>
    show InvA (if s.pending = [] then s
      else (doAnimationFrame c)^[s.pending.length] { s with pending := [] })
    split
    · exact h
    next hne =>
      cases ha : s.animId with
      | none => exact absurd (h.pendingNone ha) hne
      | some t =>
        rcases h.pendingLink t ha with hpend | hpend
        · exact absurd hpend hne
        · rw [hpend]
          show InvA ((doAnimationFrame c)^[1] _)
          rw [Function.iterate_one]
          refine invA_doAnimationFrame ?_ rfl c
          refine ⟨h.idsSorted, h.idsLt, h.hereProps, ?_, ?_, ?_⟩
          · intro t' _; exact Or.inl rfl
          · intro hnone; cases hnone
          · intro hw
            exfalso
            have hcon := (h.noWindow hw).1
            rw [ha] at hcon
            cases hcon
  | destroy =>
    show InvA (ngOnDestroy s)
    unfold ngOnDestroy
    cases ha : s.animId with
    | none => exact h
    | some t =>
      dsimp only
      refine ⟨h.idsSorted, h.idsLt, h.hereProps, ?_, ?_, ?_⟩
      · intro t' ht'
        left
        rcases h.pendingLink t ha with hpend | hpend
        · rw [hpend]; rfl
        · rw [hpend]
          simp
      · intro hnone
        cases hnone
      · intro hw
        exfalso
        have hcon := (h.noWindow hw).1
        rw [ha] at hcon
        cases hcon

theorem invA_run (es : List Event) :
    ∀ s : DirState, InvA s → InvA (run es s) := by
  induction es with
  | nil => intro s h; exact h
  | cons e t ih => intro s h; exact ih _ (invA_step e h)

theorem invA_initState (w sym : Bool) (t : Option AnimateByTimings) :
    InvA (initState w sym t) :=
  ⟨List.Pairwise.nil,
    fun e he => absurd he (List.not_mem_nil e),
    fun e he => absurd he (List.not_mem_nil e),
    fun _ ht => Option.noConfusion ht,
    fun _ => rfl,
    fun _ => ⟨rfl, rfl, rfl, fun e he => absurd he (List.not_mem_nil e)⟩⟩

theorem countHere_le_one {s : DirState} (h : InvA s) : countHere s ≤ 1 := by
  unfold countHere
  have hpf : (s.stack.filter
      (fun e => decide (e.context.state = AState.here))).Pairwise idLt :=
    h.idsSorted.filter _
  cases hf : s.stack.filter (fun e => decide (e.context.state = AState.here)) with
  | nil => simp
  | cons a tl =>
    cases tl with
    | nil => simp
    | cons b tl2 =>
      exfalso
      rw [hf] at hpf
      have hab : a.id < b.id :=
        (List.pairwise_cons.mp hpf).1 b (List.mem_cons_self b tl2)
      have hamem : a ∈ s.stack.filter
          (fun e => decide (e.context.state = AState.here)) := by
        rw [hf]; exact List.mem_cons_self a _
      have hbmem : b ∈ s.stack.filter
          (fun e => decide (e.context.state = AState.here)) := by
        rw [hf]; exact List.mem_cons_of_mem a (List.mem_cons_self b tl2)
      obtain ⟨has, hap⟩ := List.mem_filter.mp hamem
      obtain ⟨hbs, hbp⟩ := List.mem_filter.mp hbmem
      have hacur := (h.hereProps a has (of_decide_eq_true hap)).1
      have hbcur := (h.hereProps b hbs (of_decide_eq_true hbp)).1
      have : a.id = b.id := Option.some.inj (hacur.symm.trans hbcur)
      rw [this] at hab
      exact lt_irrefl _ hab

/-! ### The numeric invariant: existence stays in the unit interval -/

theorem entering_ex_bounds {x d : ℚ} (hx : 0 ≤ x) (hd : 0 < d) :
    0 ≤ min 1 (x / d) ∧ min 1 (x / d) ≤ 1 :=
  ⟨le_min (by norm_num) (div_nonneg hx hd.le), min_le_left _ _⟩

theorem leaving_ex_bounds {x d : ℚ} (hx : 0 ≤ x) (hd : 0 < d) :
    0 ≤ 1 - min 1 (x / d) ∧ 1 - min 1 (x / d) ≤ 1 := by
  constructor
  · have := min_le_left 1 (x / d)
    linarith
  · have : (0 : ℚ) ≤ min 1 (x / d) :=
      le_min (by norm_num) (div_nonneg hx hd.le)
    linarith

theorem invB_mono {lo lo' : ℚ} {s : DirState} (h : InvB lo s)
    (hle : lo ≤ lo') : InvB lo' s := by
  intro e he
  obtain ⟨h0, h1, hst, hg⟩ := h e he
  exact ⟨h0, h1, fun t0 ht0 => le_trans (hst t0 ht0) hle, hg⟩

theorem tickContext_ctxOK {lo c : ℚ} {ctx : AnimateByContext} (b : Bool)
    (h : ctxOK lo ctx) (hlc : lo ≤ c) : ctxOK c (tickContext b c ctx).1 := by
  obtain ⟨h0, h1, hst, hg⟩ := h
  cases hs : ctx.state with
  | here =>
    rw [tickContext_of_here b c ctx hs]
    exact ⟨h0, h1, fun t0 ht0 => le_trans (hst t0 ht0) hlc, hg⟩
  | entering =>
    rw [tickContext_entering b c ctx hs]
    dsimp only
    have ht0c : ctx.startTime.getD c ≤ c := by
      cases hstt : ctx.startTime with
      | none => simp
      | some t0 => simpa using le_trans (hst t0 hstt) hlc
    have hx : 0 ≤ c - ctx.startTime.getD c := sub_nonneg.mpr ht0c
    have hb := entering_ex_bounds hx hg.1
    split_ifs
    · exact ⟨hb.1, hb.2, fun t0 ht0 => Option.noConfusion ht0, hg⟩
    · exact ⟨hb.1, hb.2, fun t0 ht0 => Option.noConfusion ht0, hg⟩
    · refine ⟨hb.1, hb.2, ?_, hg⟩
      intro t0 ht0
      rw [← Option.some.inj ht0]
      exact ht0c
  | leaving =>
    rw [tickContext_leaving b c ctx hs]
    dsimp only
    have ht0c : ctx.startTime.getD c ≤ c := by
      cases hstt : ctx.startTime with
      | none => simp
      | some t0 => simpa using le_trans (hst t0 hstt) hlc
    have hx : 0 ≤ c - ctx.startTime.getD c := sub_nonneg.mpr ht0c
    have hb := leaving_ex_bounds hx hg.2
    split_ifs
    · refine ⟨hb.1, hb.2, ?_, hg⟩
      intro t0 ht0
      rw [← Option.some.inj ht0]
      exact ht0c
    · refine ⟨hb.1, hb.2, ?_, hg⟩
      intro t0 ht0
      rw [← Option.some.inj ht0]
      exact ht0c
  | reverse =>
    rw [tickContext_reverse b c ctx hs]
    dsimp only
    have hL0 : 0 ≤ ctx.timings.leave * (1 - ctx.existence) :=
      mul_nonneg hg.2.le (by linarith)
    have hx : 0 ≤ c - (c - ctx.timings.leave * (1 - ctx.existence)) := by
      rw [sub_sub_cancel]
      exact hL0
    have hb := leaving_ex_bounds hx hg.2
    have ht0c : c - ctx.timings.leave * (1 - ctx.existence) ≤ c :=
      sub_le_self c hL0
    split_ifs
    · refine ⟨hb.1, hb.2, ?_, hg⟩
      intro t0 ht0
      rw [← Option.some.inj ht0]
      exact ht0c
    · refine ⟨hb.1, hb.2, ?_, hg⟩
      intro t0 ht0
      rw [← Option.some.inj ht0]
      exact ht0c

theorem invB_scheduleAnimationFrame {lo : ℚ} {s : DirState} (h : InvB lo s) :
    InvB lo (scheduleAnimationFrame s) := by
  unfold scheduleAnimationFrame
  split
  · exact fun e he => h e he
  · exact h

theorem invB_removeStackEntry {lo : ℚ} {s : DirState} (h : InvB lo s)
    (cid : Nat) : InvB lo (removeStackEntry cid s) :=
  fun e he => h e ((removeStackEntry_stack_sublist cid s).subset he)

theorem invB_foldRemove {lo : ℚ} (l : List Nat) :
    ∀ s : DirState, InvB lo s →
      InvB lo (l.foldl (fun st cid => removeStackEntry cid st) s) := by
  induction l with
  | nil => intro s h; exact h
  | cons x t ih => intro s h; exact ih _ (invB_removeStackEntry h x)

theorem invB_setContextState {lo : ℚ} {s : DirState} (h : InvB lo s)
    (cid : Nat) (st : AState) : InvB lo (setContextState cid st s) := by
  intro e he
  rw [setContextState_stack, List.mem_map] at he
  obtain ⟨a, ha, rfl⟩ := he
  by_cases hac : (a.id == cid) = true
  · rw [if_pos hac]
    exact h a ha
  · rw [if_neg hac]
    exact h a ha

theorem invB_removeCurrent {lo : ℚ} {s : DirState} (h : InvB lo s) :
    InvB lo (removeCurrent s) := by
  unfold removeCurrent
  cases hc : s.current with
  | none => exact h
  | some cid =>
    dsimp only
    have hfin : ∀ s1 : DirState, InvB lo s1 →
        InvB lo { s1 with current := none } := fun s1 h1 e he => h1 e he
    apply hfin
    by_cases hw : s.window = true
    · rw [if_pos hw]
      cases findEntry s cid with
      | some e =>
        dsimp only
        split_ifs
        · exact invB_scheduleAnimationFrame (invB_setContextState h _ _)
        · exact invB_scheduleAnimationFrame (invB_setContextState h _ _)
        · exact h
      | none => exact h
    · rw [if_neg hw]
      exact invB_removeStackEntry h cid

theorem invB_newCurrent {lo : ℚ} {s : DirState} (h : InvB lo s)
    (hT : goodTimings (s.optTimings.getD defaultAnimateByTimings)) (v : Nat) :
    InvB lo (newCurrent v s) := by
  unfold newCurrent
  dsimp only
  have hnew : ∀ st : AState,
      ctxOK lo (AnimateByContext.make v st
        (s.optTimings.getD defaultAnimateByTimings)) := by
    intro st
    refine ⟨?_, ?_, fun t0 ht0 => Option.noConfusion ht0, hT⟩
    · rw [make_existence]; split <;> norm_num
    · rw [make_existence]; split <;> norm_num
  have happ : ∀ st : AState, InvB lo { s with
      stack := s.stack ++ [Entry.mk s.nextId (AnimateByContext.make v st
        (s.optTimings.getD defaultAnimateByTimings))]
      current := some s.nextId
      nextId := s.nextId + 1 } := by
    intro st e he
    rcases List.mem_append.mp he with he' | he'
    · exact h e he'
    · rw [List.mem_singleton] at he'
      rw [he']
      exact hnew st
  split
  · exact happ _
  · exact invB_scheduleAnimationFrame (happ _)

theorem invB_setValue {lo : ℚ} {s : DirState} (h : InvB lo s)
    (hT : goodTimings (s.optTimings.getD defaultAnimateByTimings))
    (v : Option Nat) : InvB lo (setValue v s) := by
  unfold setValue
  dsimp only
  split
  · exact h
  · have h1 : InvB lo (if s.current.isSome = true then removeCurrent s
        else s) := by
      split
      · exact invB_removeCurrent h
      · exact h
    have hT1 : goodTimings ((if s.current.isSome = true then removeCurrent s
        else s).optTimings.getD defaultAnimateByTimings) := by
      split
      · rw [(sameConfig_removeCurrent s).2.2.2]
        exact hT
      · exact hT
    cases v
    · exact h1
    · exact invB_newCurrent h1 hT1 _

theorem invB_doAnimationFrame {lo c : ℚ} {s : DirState} (h : InvB lo s)
    (hlc : lo ≤ c) : InvB c (doAnimationFrame c s) := by
  unfold doAnimationFrame
  dsimp only
  have h1 : InvB c { s with
      animId := none
      stack := (s.stack.map (processEntry s.current c)).map
        (fun r => r.entry) } := by
    intro e he
    rw [List.map_map, List.mem_map] at he
    obtain ⟨a, ha, rfl⟩ := he
    exact tickContext_ctxOK _ (h a ha) hlc
  split
  · exact invB_scheduleAnimationFrame (invB_foldRemove _ _ h1)
  · exact invB_foldRemove _ _ h1

theorem invB_stepTick {lo c : ℚ} {s : DirState} (hA : InvA s)
    (hB : InvB lo s) (hlc : lo ≤ c) : InvB c (step (Event.tick c) s) := by
  show InvB c (if s.pending = [] then s
    else (doAnimationFrame c)^[s.pending.length] { s with pending := [] })
  split
  · exact invB_mono hB hlc
  next hne =>
    cases ha : s.animId with
    | none => exact absurd (hA.pendingNone ha) hne
    | some t =>
      rcases hA.pendingLink t ha with hpend | hpend
      · exact absurd hpend hne
      · rw [hpend]
        show InvB c ((doAnimationFrame c)^[1] _)
        rw [Function.iterate_one]
        exact invB_doAnimationFrame (fun e he => hB e he) hlc

theorem invB_ngOnDestroy {lo : ℚ} {s : DirState} (h : InvB lo s) :
    InvB lo (ngOnDestroy s) := by
  unfold ngOnDestroy
  cases s.animId with
  | none => exact h
  | some t => exact fun e he => h e he

theorem invB_run (es : List Event) :
    ∀ (lo : ℚ) (s : DirState), InvA s → InvB lo s →
      goodTimings (s.optTimings.getD defaultAnimateByTimings) →
      clocksOK lo es = true → InvB (finalClock lo es) (run es s) := by
  induction es with
  | nil => intro lo s _ hB _ _; exact hB
  | cons e t ih =>
    intro lo s hA hB hT hck
    cases e with
    | set v =>
      exact ih lo _ (invA_step _ hA) (invB_setValue hB hT v)
        (by rw [(sameConfig_step (Event.set v) s).2.2.2]; exact hT) hck
    | tick c =>
      rw [show clocksOK lo (Event.tick c :: t) =
        (decide (lo < c) && clocksOK c t) from rfl, Bool.and_eq_true] at hck
      obtain ⟨hlo, hck'⟩ := hck
      have hlo' : lo < c := of_decide_eq_true hlo
      exact ih c _ (invA_step _ hA) (invB_stepTick hA hB hlo'.le)
        (by rw [(sameConfig_step (Event.tick c) s).2.2.2]; exact hT) hck'
    | destroy =>
      exact ih lo _ (invA_step _ hA) (invB_ngOnDestroy hB)
        (by rw [(sameConfig_step Event.destroy s).2.2.2]; exact hT) hck

theorem invB_initState (lo : ℚ) (w sym : Bool) (t : Option AnimateByTimings) :
    InvB lo (initState w sym t) :=
  fun e he => absurd he (List.not_mem_nil e)

theorem existenceInUnit_of_invB {lo : ℚ} {s : DirState} (h : InvB lo s) :
    existenceInUnit s = true := by
  unfold existenceInUnit
  rw [List.all_eq_true]
  intro e he
  obtain ⟨h0, h1, _, _⟩ := h e he
  rw [Bool.and_eq_true, decide_eq_true_eq, decide_eq_true_eq]
  exact ⟨h0, h1⟩

/-! ### Lemmas about looking up entries after an operation -/

theorem find?_map_setState (cid : Nat) (st : AState) :
    ∀ (l : List Entry) (e : Entry),
      l.find? (fun x => x.id == cid) = some e →
      (l.map (fun x => if x.id == cid then
        { x with context := { x.context with state := st } } else x)).find?
        (fun x => x.id == cid) =
        some { e with context := { e.context with state := st } } := by
  intro l
  induction l with
  | nil => intro e he; cases he
  | cons a t ih =>
    intro e he
    by_cases hac : (a.id == cid) = true
    · rw [List.find?_cons_of_pos (p := fun x : Entry => x.id == cid) _ hac] at he
      obtain rfl := Option.some.inj he
      rw [List.map_cons, if_pos hac,
        List.find?_cons_of_pos (p := fun x : Entry => x.id == cid) _
          (by simpa using hac)]
    · rw [List.find?_cons_of_neg (p := fun x : Entry => x.id == cid) _ hac] at he
      rw [List.map_cons, if_neg hac,
        List.find?_cons_of_neg (p := fun x : Entry => x.id == cid) _
          (by simpa using hac)]
      exact ih e he

theorem findEntry_setContextState {s : DirState} {cid : Nat} {e : Entry}
    (st : AState) (hfind : findEntry s cid = some e) :
    findEntry (setContextState cid st s) cid =
      some { e with context := { e.context with state := st } } :=
  find?_map_setState cid st s.stack e hfind

theorem findEntry_scheduleAnimationFrame (s : DirState) (cid : Nat) :
    findEntry (scheduleAnimationFrame s) cid = findEntry s cid := by
  unfold scheduleAnimationFrame
  split <;> rfl

theorem reverse_exact {L ex : ℚ} (hL : 0 < L) (h0 : 0 ≤ ex) (h1 : ex ≤ 1)
    (c : ℚ) :
    1 - min 1 ((c - (c - L * (1 - ex))) / L) = ex := by
  rw [sub_sub_cancel, mul_div_cancel_left₀ _ hL.ne',
    min_eq_right (by linarith : 1 - ex ≤ 1)]
  ring

/-! ### Pointwise facts about the tick loop body -/

theorem processEntry_entering_existence (cur : Option Nat) (c : ℚ) (e : Entry)
    (hst : e.context.state = AState.entering) :
    (processEntry cur c e).entry.context.existence =
      min 1 ((c - e.context.startTime.getD c) / e.context.timings.enter) := by
  unfold processEntry
  dsimp only
  rw [tickContext_entering _ _ _ hst]
  dsimp only
  split_ifs <;> rfl

theorem processEntry_leaving_existence (cur : Option Nat) (c : ℚ) (e : Entry)
    (hst : e.context.state = AState.leaving) :
    (processEntry cur c e).entry.context.existence =
      1 - min 1 ((c - e.context.startTime.getD c) / e.context.timings.leave) := by
  unfold processEntry
  dsimp only
  rw [tickContext_leaving _ _ _ hst]
  dsimp only
  split_ifs <;> rfl

theorem processEntry_entering_incomplete (cur : Option Nat) (c : ℚ) (e : Entry)
    (hst : e.context.state = AState.entering)
    (hmid : (processEntry cur c e).entry.context.state = AState.entering) :
    (processEntry cur c e).entry.context.startTime =
      some (e.context.startTime.getD c) ∧
    (processEntry cur c e).entry.context.timings = e.context.timings := by
  unfold processEntry at hmid ⊢
  dsimp only at hmid ⊢
  rw [tickContext_entering _ _ _ hst] at hmid ⊢
  dsimp only at hmid ⊢
  split_ifs at hmid ⊢ <;> first
    | exact ⟨rfl, rfl⟩
    | simp at hmid

theorem processEntry_entering_keeps (cur : Option Nat) (c : ℚ) (e : Entry)
    (hst : e.context.state = AState.entering)
    (hlt : min 1 ((c - e.context.startTime.getD c) /
      e.context.timings.enter) < 1) :
    (processEntry cur c e).entry.context.state = AState.entering := by
  unfold processEntry
  dsimp only
  rw [tickContext_entering _ _ _ hst]
  dsimp only
  rw [if_neg (not_le.mpr hlt)]
  exact hst

theorem processEntry_leaving_form (cur : Option Nat) (c : ℚ) (e : Entry)
    (hst : e.context.state = AState.leaving) :
    (processEntry cur c e).entry.context.state = AState.leaving ∧
    (processEntry cur c e).entry.context.startTime =
      some (e.context.startTime.getD c) ∧
    (processEntry cur c e).entry.context.timings = e.context.timings := by
  unfold processEntry
  dsimp only
  rw [tickContext_leaving _ _ _ hst]
  dsimp only
  split_ifs <;> exact ⟨hst, rfl, rfl⟩

/-! ### Claim theorems -/

/-- C1: For every sequence of `setValue` calls performed with a frame driver
present (`window = true`), interleaved with any number of ticks (and even
destruction events), at most one instance in the stack is in state `here`
at any time. -/
theorem c1_at_most_one_here (es : List Event) (sym : Bool)
    (t : Option AnimateByTimings) :
    countHere (run es (initState true sym t)) ≤ 1 :=
  countHere_le_one (invA_run es _ (invA_initState true sym t))

/-- C5: Under positive enter/leave durations and a monotonically increasing
clock, every instance's existence lies in `[0, 1]` after creation and after
every tick; it is initialised to 0 for `entering` instances and to 1 for
`here` (instant-creation) instances, and the tick formulas keep it in the
interval. -/
theorem c5_existence_in_unit_interval (es : List Event) (w sym : Bool)
    (t : Option AnimateByTimings) (lo : ℚ) (v : Nat) (tm : AnimateByTimings)
    (hT : goodTimings (t.getD defaultAnimateByTimings))
    (hck : clocksOK lo es = true) :
    existenceInUnit (run es (initState w sym t)) = true ∧
    (AnimateByContext.make v AState.entering tm).existence = 0 ∧
    (AnimateByContext.make v AState.here tm).existence = 1 := by
  refine ⟨?_, by rw [make_existence]; simp, by rw [make_existence]; simp⟩
  exact existenceInUnit_of_invB
    (invB_run es lo _ (invA_initState w sym t) (invB_initState lo w sym t)
      hT hck)

/-- Witness for C5 at a concrete trace. -/
theorem c5_witness :
    goodTimings ((some (AnimateByTimings.mk 3 4)).getD
      defaultAnimateByTimings) ∧
    clocksOK 0 [Event.set (some 5), Event.tick 2, Event.tick 5] = true ∧
    (existenceInUnit (run [Event.set (some 5), Event.tick 2, Event.tick 5]
        (initState true false (some (AnimateByTimings.mk 3 4)))) = true ∧
      (AnimateByContext.make 0 AState.entering
        (AnimateByTimings.mk 1 1)).existence = 0 ∧
      (AnimateByContext.make 0 AState.here
        (AnimateByTimings.mk 1 1)).existence = 1) :=
  ⟨by decide, by decide,
    c5_existence_in_unit_interval
      [Event.set (some 5), Event.tick 2, Event.tick 5] true false
      (some (AnimateByTimings.mk 3 4)) 0 0 (AnimateByTimings.mk 1 1)
      (by decide) (by decide)⟩

/-- C2: With `symmetric` enabled, retiring an `entering` instance at
existence `ex` (`0 ≤ ex ≤ 1`, positive leave duration) moves it to the
`reverse` state, and on the next tick at clock `c` its `startTime` is
back-dated to `c - leave * (1 - ex)`, the state becomes `leaving`, and the
leave-progress formula at that same tick yields existence exactly `ex`:
the transition is continuous, with no jump. -/
theorem c2_symmetric_reverse_continuity
    (s : DirState) (cid : Nat) (e : Entry) (ex c : ℚ) (cur : Option Nat)
    (hw : s.window = true) (hsym : s.symmetric = true)
    (hcur : s.current = some cid) (hfind : findEntry s cid = some e)
    (hst : e.context.state = AState.entering)
    (hex : e.context.existence = ex) (h0 : 0 ≤ ex) (h1 : ex ≤ 1)
    (hL : 0 < e.context.timings.leave) :
    findEntry (removeCurrent s) cid =
      some { e with context := { e.context with state := AState.reverse } } ∧
    (processEntry cur c { e with context :=
        { e.context with state := AState.reverse } }).entry.context.startTime
      = some (c - e.context.timings.leave * (1 - ex)) ∧
    (processEntry cur c { e with context :=
        { e.context with state := AState.reverse } }).entry.context.state
      = AState.leaving ∧
    (processEntry cur c { e with context :=
        { e.context with state := AState.reverse } }).entry.context.existence
      = ex := by
  refine ⟨?_, ?_⟩
  · unfold removeCurrent
    rw [hcur]
    dsimp only
    rw [if_pos hw, hfind]
    dsimp only
    rw [if_neg (fun hcon => by rw [hst] at hcon; cases hcon),
      if_pos ⟨hsym, hst⟩]
    show findEntry (scheduleAnimationFrame (setContextState cid
      AState.reverse s)) cid = _
    rw [findEntry_scheduleAnimationFrame]
    exact findEntry_setContextState AState.reverse hfind
  · unfold processEntry
    dsimp only
    rw [tickContext_reverse _ _ _ rfl]
    dsimp only
    split_ifs <;>
      exact ⟨by rw [hex], rfl, by rw [hex]; exact reverse_exact hL h0 h1 c⟩

/-- Witness for C2 at a concrete state: an entering instance at existence
one half, with leave duration 50, retired at clock 20. -/
theorem c2_witness :
    (DirState.mk [Entry.mk 0 (AnimateByContext.mk 7 AState.entering (1/2)
        (AnimateByTimings.mk 100 50) (some 5))] (some 0) true none true true
        none 1 [] 1 []).window = true ∧
    (1 : ℚ)/2 ≤ 1 ∧
    (0 : ℚ) < 50 ∧
    ((processEntry none 20 { Entry.mk 0 (AnimateByContext.mk 7
        AState.entering (1/2) (AnimateByTimings.mk 100 50) (some 5)) with
        context := { (AnimateByContext.mk 7 AState.entering (1/2)
          (AnimateByTimings.mk 100 50) (some 5)) with
          state := AState.reverse } }).entry.context.startTime
      = some (20 - 50 * (1 - 1/2)) ∧
    (processEntry none 20 { Entry.mk 0 (AnimateByContext.mk 7
        AState.entering (1/2) (AnimateByTimings.mk 100 50) (some 5)) with
        context := { (AnimateByContext.mk 7 AState.entering (1/2)
          (AnimateByTimings.mk 100 50) (some 5)) with
          state := AState.reverse } }).entry.context.existence = 1/2) :=
  ⟨rfl, by norm_num, by norm_num,
    ⟨(c2_symmetric_reverse_continuity
      (DirState.mk [Entry.mk 0 (AnimateByContext.mk 7 AState.entering (1/2)
        (AnimateByTimings.mk 100 50) (some 5))] (some 0) true none true true
        none 1 [] 1 [])
      0 (Entry.mk 0 (AnimateByContext.mk 7 AState.entering (1/2)
        (AnimateByTimings.mk 100 50) (some 5)))
      (1/2) 20 none rfl rfl rfl rfl rfl rfl (by norm_num)
      (by norm_num) (by norm_num)).2.1,
     (c2_symmetric_reverse_continuity
      (DirState.mk [Entry.mk 0 (AnimateByContext.mk 7 AState.entering (1/2)
        (AnimateByTimings.mk 100 50) (some 5))] (some 0) true none true true
        none 1 [] 1 [])
      0 (Entry.mk 0 (AnimateByContext.mk 7 AState.entering (1/2)
        (AnimateByTimings.mk 100 50) (some 5)))
      (1/2) 20 none rfl rfl rfl rfl rfl rfl (by norm_num)
      (by norm_num) (by norm_num)).2.2.2⟩⟩

/-- C3: With `symmetric` disabled and a frame driver present, retiring an
`entering` instance changes neither the stack (so neither its state nor its
`startTime`) nor the frame registration; on a tick, a no-longer-current
`entering` instance keeps entering while its progress is below 1 and requests
another tick, and on the tick where its progress reaches 1 it moves directly
to `leaving` with `startTime` cleared, existence exactly 1, and another tick
requested — it never becomes `here`. -/
theorem c3_asymmetric_enter_completes
    (s : DirState) (cid : Nat) (e e' : Entry) (cur : Option Nat) (c t0 : ℚ)
    (hw : s.window = true) (hsym : s.symmetric = false)
    (hcur : s.current = some cid) (hfind : findEntry s cid = some e)
    (hst : e.context.state = AState.entering)
    (hne : cur ≠ some e'.id) (hst' : e'.context.state = AState.entering)
    (ht0 : e'.context.startTime = some t0) :
    (removeCurrent s).stack = s.stack ∧
    (removeCurrent s).animId = s.animId ∧
    (removeCurrent s).current = none ∧
    (1 ≤ min 1 ((c - t0) / e'.context.timings.enter) →
      (processEntry cur c e').entry.context.state = AState.leaving ∧
      (processEntry cur c e').entry.context.startTime = none ∧
      (processEntry cur c e').entry.context.existence = 1 ∧
      (processEntry cur c e').another = true) ∧
    (min 1 ((c - t0) / e'.context.timings.enter) < 1 →
      (processEntry cur c e').entry.context.state = AState.entering ∧
      (processEntry cur c e').entry.context.startTime = some t0 ∧
      (processEntry cur c e').another = true) ∧
    (processEntry cur c e').entry.context.state ≠ AState.here := by
  have hbranch :
      (1 ≤ min 1 ((c - t0) / e'.context.timings.enter) →
        (processEntry cur c e').entry.context.state = AState.leaving ∧
        (processEntry cur c e').entry.context.startTime = none ∧
        (processEntry cur c e').entry.context.existence = 1 ∧
        (processEntry cur c e').another = true) ∧
      (min 1 ((c - t0) / e'.context.timings.enter) < 1 →
        (processEntry cur c e').entry.context.state = AState.entering ∧
        (processEntry cur c e').entry.context.startTime = some t0 ∧
        (processEntry cur c e').another = true) ∧
      (processEntry cur c e').entry.context.state ≠ AState.here := by
    have hb : decide (cur = some e'.id) = false := decide_eq_false hne
    unfold processEntry
    dsimp only
    rw [tickContext_entering _ _ _ hst', ht0]
    dsimp only [Option.getD]
    rw [hb]
    by_cases hge : 1 ≤ min 1 ((c - t0) / e'.context.timings.enter)
    · rw [if_pos hge, if_neg (by decide : ¬ (false = true))]
      refine ⟨?_, ?_, ?_⟩
      · intro _
        exact ⟨rfl, rfl, le_antisymm (min_le_left _ _) hge, rfl⟩
      · intro hlt
        exact absurd hge (not_le.mpr hlt)
      · intro hcon
        cases hcon
    · rw [if_neg hge]
      refine ⟨?_, ?_, ?_⟩
      · intro hge'
        exact absurd hge' hge
      · intro _
        exact ⟨hst', rfl, rfl⟩
      · intro hcon
        rw [hst'] at hcon
        cases hcon
  refine ⟨?_, ?_, ?_, hbranch⟩
  all_goals
    unfold removeCurrent
  all_goals
    rw [hcur]
  all_goals
    dsimp only
  all_goals
    rw [if_pos hw, hfind]
  all_goals
    dsimp only
  all_goals
    rw [if_neg (fun hcon => by rw [hst] at hcon; cases hcon),
      if_neg (fun hcon => by rw [hsym] at hcon; cases hcon.1)]

/-- Witness for C3: concrete retirement of an entering current instance, and
a concrete tick on a superseded entering instance (with both a completing
clock and the stated branch facts). -/
theorem c3_witness :
    (DirState.mk [Entry.mk 0 (AnimateByContext.mk 1 AState.entering 0
        (AnimateByTimings.mk 100 50) (some 0))] (some 0) true (some 1) true
        false none 1 [1] 2 []).window = true ∧
    (none : Option Nat) ≠ some 5 ∧
    ((removeCurrent (DirState.mk [Entry.mk 0 (AnimateByContext.mk 1
          AState.entering 0 (AnimateByTimings.mk 100 50) (some 0))] (some 0)
          true (some 1) true false none 1 [1] 2 [])).stack =
        (DirState.mk [Entry.mk 0 (AnimateByContext.mk 1 AState.entering 0
          (AnimateByTimings.mk 100 50) (some 0))] (some 0) true (some 1) true
          false none 1 [1] 2 []).stack ∧
      (removeCurrent (DirState.mk [Entry.mk 0 (AnimateByContext.mk 1
          AState.entering 0 (AnimateByTimings.mk 100 50) (some 0))] (some 0)
          true (some 1) true false none 1 [1] 2 [])).animId =
        (DirState.mk [Entry.mk 0 (AnimateByContext.mk 1 AState.entering 0
          (AnimateByTimings.mk 100 50) (some 0))] (some 0) true (some 1) true
          false none 1 [1] 2 []).animId ∧
      (removeCurrent (DirState.mk [Entry.mk 0 (AnimateByContext.mk 1
          AState.entering 0 (AnimateByTimings.mk 100 50) (some 0))] (some 0)
          true (some 1) true false none 1 [1] 2 [])).current = none ∧
      (1 ≤ min 1 (((200 : ℚ) - 10) /
          (Entry.mk 5 (AnimateByContext.mk 2 AState.entering 0
            (AnimateByTimings.mk 100 50)
            (some 10))).context.timings.enter) →
        (processEntry none 200 (Entry.mk 5 (AnimateByContext.mk 2
          AState.entering 0 (AnimateByTimings.mk 100 50)
          (some 10)))).entry.context.state = AState.leaving ∧
        (processEntry none 200 (Entry.mk 5 (AnimateByContext.mk 2
          AState.entering 0 (AnimateByTimings.mk 100 50)
          (some 10)))).entry.context.startTime = none ∧
        (processEntry none 200 (Entry.mk 5 (AnimateByContext.mk 2
          AState.entering 0 (AnimateByTimings.mk 100 50)
          (some 10)))).entry.context.existence = 1 ∧
        (processEntry none 200 (Entry.mk 5 (AnimateByContext.mk 2
          AState.entering 0 (AnimateByTimings.mk 100 50)
          (some 10)))).another = true) ∧
      (min 1 (((200 : ℚ) - 10) /
          (Entry.mk 5 (AnimateByContext.mk 2 AState.entering 0
            (AnimateByTimings.mk 100 50)
            (some 10))).context.timings.enter) < 1 →
        (processEntry none 200 (Entry.mk 5 (AnimateByContext.mk 2
          AState.entering 0 (AnimateByTimings.mk 100 50)
          (some 10)))).entry.context.state = AState.entering ∧
        (processEntry none 200 (Entry.mk 5 (AnimateByContext.mk 2
          AState.entering 0 (AnimateByTimings.mk 100 50)
          (some 10)))).entry.context.startTime = some 10 ∧
        (processEntry none 200 (Entry.mk 5 (AnimateByContext.mk 2
          AState.entering 0 (AnimateByTimings.mk 100 50)
          (some 10)))).another = true) ∧
      (processEntry none 200 (Entry.mk 5 (AnimateByContext.mk 2
        AState.entering 0 (AnimateByTimings.mk 100 50)
        (some 10)))).entry.context.state ≠ AState.here) :=
  ⟨rfl, by decide,
    c3_asymmetric_enter_completes
      (DirState.mk [Entry.mk 0 (AnimateByContext.mk 1 AState.entering 0
        (AnimateByTimings.mk 100 50) (some 0))] (some 0) true (some 1) true
        false none 1 [1] 2 [])
      0
      (Entry.mk 0 (AnimateByContext.mk 1 AState.entering 0
        (AnimateByTimings.mk 100 50) (some 0)))
      (Entry.mk 5 (AnimateByContext.mk 2 AState.entering 0
        (AnimateByTimings.mk 100 50) (some 10)))
      none 200 10
      rfl rfl rfl rfl rfl (by decide) rfl rfl⟩

/-- C4: Across two successive ticks with clocks `c1 ≤ c2` and positive
durations, an instance that is `entering` at both ticks has non-decreasing
existence, and an instance that is `leaving` has non-increasing existence. -/
theorem c4_existence_monotone
    (e f : Entry) (cur1 cur2 cur3 cur4 : Option Nat) (c1 c2 : ℚ)
    (h12 : c1 ≤ c2)
    (hE : 0 < e.context.timings.enter)
    (hent : e.context.state = AState.entering)
    (hmid : (processEntry cur1 c1 e).entry.context.state = AState.entering)
    (hL : 0 < f.context.timings.leave)
    (hlv : f.context.state = AState.leaving) :
    (processEntry cur1 c1 e).entry.context.existence ≤
      (processEntry cur2 c2
        ((processEntry cur1 c1 e).entry)).entry.context.existence ∧
    (processEntry cur4 c2
        ((processEntry cur3 c1 f).entry)).entry.context.existence ≤
      (processEntry cur3 c1 f).entry.context.existence := by
  constructor
  · obtain ⟨hst1, htm1⟩ := processEntry_entering_incomplete cur1 c1 e hent hmid
    have hex1 := processEntry_entering_existence cur1 c1 e hent
    have hex2 := processEntry_entering_existence cur2 c2
      (processEntry cur1 c1 e).entry hmid
    rw [hst1, htm1] at hex2
    simp only [Option.getD_some] at hex2
    rw [hex1, hex2]
    refine min_le_min le_rfl ?_
    have h1 : c1 - e.context.startTime.getD c1 ≤
        c2 - e.context.startTime.getD c1 := by linarith
    exact div_le_div_of_nonneg_right h1 hE.le
  · obtain ⟨hlv1, hst1, htm1⟩ := processEntry_leaving_form cur3 c1 f hlv
    have hex1 := processEntry_leaving_existence cur3 c1 f hlv
    have hex2 := processEntry_leaving_existence cur4 c2
      (processEntry cur3 c1 f).entry hlv1
    rw [hst1, htm1] at hex2
    simp only [Option.getD_some] at hex2
    rw [hex1, hex2]
    have h1 : c1 - f.context.startTime.getD c1 ≤
        c2 - f.context.startTime.getD c1 := by linarith
    have h2 : min 1 ((c1 - f.context.startTime.getD c1) /
        f.context.timings.leave) ≤
        min 1 ((c2 - f.context.startTime.getD c1) /
          f.context.timings.leave) :=
      min_le_min le_rfl (div_le_div_of_nonneg_right h1 hL.le)
    linarith

/-- Witness for C4 at concrete entries and ticks at clocks 10 and 20. -/
theorem c4_witness :
    (10 : ℚ) ≤ 20 ∧
    (0 : ℚ) < 100 ∧
    (processEntry none 10 (Entry.mk 0 (AnimateByContext.mk 1
      AState.entering 0 (AnimateByTimings.mk 100 50)
      (some 0)))).entry.context.state = AState.entering ∧
    ((processEntry none 10 (Entry.mk 0 (AnimateByContext.mk 1
        AState.entering 0 (AnimateByTimings.mk 100 50)
        (some 0)))).entry.context.existence ≤
      (processEntry none 20 ((processEntry none 10 (Entry.mk 0
        (AnimateByContext.mk 1 AState.entering 0 (AnimateByTimings.mk 100 50)
        (some 0)))).entry)).entry.context.existence ∧
    (processEntry none 20 ((processEntry none 10 (Entry.mk 3
        (AnimateByContext.mk 2 AState.leaving 1 (AnimateByTimings.mk 100 50)
        (some 0)))).entry)).entry.context.existence ≤
      (processEntry none 10 (Entry.mk 3 (AnimateByContext.mk 2
        AState.leaving 1 (AnimateByTimings.mk 100 50)
        (some 0)))).entry.context.existence) := by
  have hmid : (processEntry none 10 (Entry.mk 0 (AnimateByContext.mk 1
      AState.entering 0 (AnimateByTimings.mk 100 50)
      (some 0)))).entry.context.state = AState.entering :=
    processEntry_entering_keeps none 10 _ rfl
      (by norm_num [Option.getD_some, min_def])
  exact ⟨by norm_num, by norm_num, hmid,
    c4_existence_monotone
      (Entry.mk 0 (AnimateByContext.mk 1 AState.entering 0
        (AnimateByTimings.mk 100 50) (some 0)))
      (Entry.mk 3 (AnimateByContext.mk 2 AState.leaving 1
        (AnimateByTimings.mk 100 50) (some 0)))
      none none none none 10 20
      (by norm_num) (by norm_num) rfl hmid (by norm_num) rfl⟩

/-- `setValue` on a no-window state with no current instance: the new
instance is created instantly `here` and nothing is scheduled. -/
theorem setValue_new_no_window (s : DirState) (x : Nat)
    (hw : s.window = false) (hcur : s.current = none) :
    setValue (some x) s = { s with
      stack := s.stack ++ [Entry.mk s.nextId (AnimateByContext.make x
        AState.here (s.optTimings.getD defaultAnimateByTimings))]
      current := some s.nextId
      nextId := s.nextId + 1 } := by
  unfold setValue
  dsimp only
  rw [hcur]
  simp only [Option.none_bind, Option.isSome_none]
  rw [if_neg (by simp : ¬ (none : Option Nat) = some x),
    if_neg Bool.false_ne_true]
  unfold newCurrent
  dsimp only
  rw [show (!s.window || !s.inited) = true from by rw [hw]; rfl]
  rfl

/-- `setValue` on a no-window state whose current instance holds a different
value: the current instance is removed synchronously (its view destroyed)
and the new one is created instantly `here`. -/
theorem setValue_swap_no_window (s : DirState) (cid : Nat) (e : Entry)
    (y : Nat) (hw : s.window = false) (hcur : s.current = some cid)
    (hfind : findEntry s cid = some e) (hne : e.context.value ≠ y)
    (hany : s.stack.any (fun a => a.id == cid) = true) :
    setValue (some y) s = { s with
      stack := s.stack.eraseP (fun a => a.id == cid) ++
        [Entry.mk s.nextId (AnimateByContext.make y AState.here
          (s.optTimings.getD defaultAnimateByTimings))]
      current := some s.nextId
      nextId := s.nextId + 1
      destroyedViews := s.destroyedViews ++ [cid] } := by
  unfold setValue
  dsimp only
  rw [hcur]
  simp only [Option.some_bind, hfind, Option.map_some', Option.isSome_some]
  rw [if_neg (by simp [hne] : ¬ (some e.context.value : Option Nat) = some y),
    if_pos trivial]
  unfold removeCurrent
  rw [hcur]
  dsimp only
  rw [if_neg (fun hcon => by rw [hw] at hcon; cases hcon)]
  unfold removeStackEntry
  rw [if_pos hany]
  unfold newCurrent
  dsimp only
  rw [show (!s.window || !s.inited) = true from by rw [hw]; rfl]
  rfl

/-- C6: With no frame driver, nothing is ever scheduled (`animId` stays
clear, the driver holds no registration, no token is ever drawn), every
surviving instance is an instant `here` instance with existence 1, and
`setValue x` then `setValue y` (distinct, defined) leaves exactly one
instance — the one for `y`, created directly `here` with existence 1 —
with `x`'s view torn down synchronously. -/
theorem c6_no_driver_instant (es : List Event) (sym : Bool)
    (t : Option AnimateByTimings) (x y : Nat) (hxy : x ≠ y) :
    (run es (initState false sym t)).animId = none ∧
    (run es (initState false sym t)).pending = [] ∧
    (run es (initState false sym t)).nextToken = 1 ∧
    allHereFull (run es (initState false sym t)) = true ∧
    (setValue (some y) (setValue (some x)
      (initState false sym t))).stack.map (fun e => e.context.value) = [y] ∧
    (setValue (some y) (setValue (some x)
      (initState false sym t))).stack.map (fun e => e.context.state) =
        [AState.here] ∧
    (setValue (some y) (setValue (some x)
      (initState false sym t))).stack.map (fun e => e.context.existence) =
        [1] ∧
    (setValue (some y) (setValue (some x)
      (initState false sym t))).destroyedViews = [0] := by
  have hA := invA_run es _ (invA_initState false sym t)
  have hw : (run es (initState false sym t)).window = false :=
    (sameConfig_run es _).1
  obtain ⟨h1, h2, h3, h4⟩ := hA.noWindow hw
  have hall : allHereFull (run es (initState false sym t)) = true := by
    unfold allHereFull
    rw [List.all_eq_true]
    intro e he
    rw [Bool.and_eq_true, decide_eq_true_eq, decide_eq_true_eq]
    exact ⟨h4 e he, (hA.hereProps e he (h4 e he)).2.1⟩
  have hs1 : setValue (some x) (initState false sym t) =
      DirState.mk [Entry.mk 0 (AnimateByContext.make x AState.here
        (t.getD defaultAnimateByTimings))] (some 0) false none true sym t
        1 [] 1 [] := by
    rw [setValue_new_no_window (initState false sym t) x rfl rfl]
    simp [initState]
  have hs2 : setValue (some y) (setValue (some x) (initState false sym t)) =
      DirState.mk [Entry.mk 1 (AnimateByContext.make y AState.here
        (t.getD defaultAnimateByTimings))] (some 1) false none true sym t
        2 [] 1 [0] := by
    rw [hs1]
    rw [setValue_swap_no_window
      (DirState.mk [Entry.mk 0 (AnimateByContext.make x AState.here
        (t.getD defaultAnimateByTimings))] (some 0) false none true sym t
        1 [] 1 [])
      0 (Entry.mk 0 (AnimateByContext.make x AState.here
        (t.getD defaultAnimateByTimings))) y rfl rfl rfl hxy rfl]
    simp
  rw [hs2]
  refine ⟨h1, h2, h3, hall, ?_, ?_, ?_, rfl⟩ <;>
    simp [AnimateByContext.make]

/-- Witness for C6 at a concrete trace and values. -/
theorem c6_witness :
    (0 : Nat) ≠ 1 ∧
    ((run [Event.set (some 0), Event.tick 5, Event.destroy]
        (initState false false none)).animId = none ∧
      (run [Event.set (some 0), Event.tick 5, Event.destroy]
        (initState false false none)).pending = [] ∧
      (run [Event.set (some 0), Event.tick 5, Event.destroy]
        (initState false false none)).nextToken = 1 ∧
      allHereFull (run [Event.set (some 0), Event.tick 5, Event.destroy]
        (initState false false none)) = true ∧
      (setValue (some 1) (setValue (some 0)
        (initState false false none))).stack.map
          (fun e => e.context.value) = [1] ∧
      (setValue (some 1) (setValue (some 0)
        (initState false false none))).stack.map
          (fun e => e.context.state) = [AState.here] ∧
      (setValue (some 1) (setValue (some 0)
        (initState false false none))).stack.map
          (fun e => e.context.existence) = [1] ∧
      (setValue (some 1) (setValue (some 0)
        (initState false false none))).destroyedViews = [0]) :=
  ⟨by decide,
    c6_no_driver_instant [Event.set (some 0), Event.tick 5, Event.destroy]
      false none 0 1 (by decide)⟩

/-- C7 counterexample: after `setValue(1)` with a driver present (one
entering instance in the stack, one pending frame), `ngOnDestroy` cancels
the pending registration but the instance is still in the stack and no view
has been torn down — `dispose` does not release the remaining instances nor
notify the host. -/
theorem c7_counterexample :
    (step Event.destroy (run [Event.set (some 1)]
      (initState true false none))).stack.length = 1 ∧
    (step Event.destroy (run [Event.set (some 1)]
      (initState true false none))).destroyedViews = [] ∧
    (step Event.destroy (run [Event.set (some 1)]
      (initState true false none))).pending = [] :=
  ⟨rfl, rfl, rfl⟩

/-- C7 (amended): `ngOnDestroy` cancels any pending frame registration, so
no tick callback runs afterward (a frame after destruction leaves the state
untouched); it does not remove instances from the stack and does not notify
the host to tear any view down — remaining instances are left exactly as
they are. -/
theorem c7_amended (es : List Event) (sym w : Bool)
    (t : Option AnimateByTimings) (c : ℚ) :
    (ngOnDestroy (run es (initState w sym t))).pending = [] ∧
    (ngOnDestroy (run es (initState w sym t))).stack =
      (run es (initState w sym t)).stack ∧
    (ngOnDestroy (run es (initState w sym t))).destroyedViews =
      (run es (initState w sym t)).destroyedViews ∧
    step (Event.tick c) (ngOnDestroy (run es (initState w sym t))) =
      ngOnDestroy (run es (initState w sym t)) := by
  have hA := invA_run es _ (invA_initState w sym t)
  have hp : (ngOnDestroy (run es (initState w sym t))).pending = [] := by
    unfold ngOnDestroy
    cases ha : (run es (initState w sym t)).animId with
    | none => exact hA.pendingNone ha
    | some tk =>
      dsimp only
      rcases hA.pendingLink tk ha with hpend | hpend
      · rw [hpend]; rfl
      · rw [hpend]; simp
  refine ⟨hp, ?_, ?_, ?_⟩
  · unfold ngOnDestroy
    cases (run es (initState w sym t)).animId <;> rfl
  · unfold ngOnDestroy
    cases (run es (initState w sym t)).animId <;> rfl
  · show (if (ngOnDestroy (run es (initState w sym t))).pending = [] then _
      else _) = _
    rw [if_pos hp]

/-- C8: At every reachable state at most one frame-callback registration is
outstanding at the driver; scheduling is a no-op while a registration is
pending (`animId` set); and `doAnimationFrame` behaves as if the pending
marker were already cleared — it clears `animId` before anything else, so
rescheduling within the tick is possible without double-scheduling. -/
theorem c8_never_double_schedules (es : List Event) (sym w : Bool)
    (t : Option AnimateByTimings) (s' : DirState) (tok : Nat) (c : ℚ)
    (h : s'.animId = some tok) :
    (run es (initState w sym t)).pending.length ≤ 1 ∧
    scheduleAnimationFrame s' = s' ∧
    doAnimationFrame c s' = doAnimationFrame c { s' with animId := none } := by
  refine ⟨?_, ?_, ?_⟩
  · have hA := invA_run es _ (invA_initState w sym t)
    cases ha : (run es (initState w sym t)).animId with
    | none => rw [hA.pendingNone ha]; simp
    | some tk => rcases hA.pendingLink tk ha with hp | hp <;> rw [hp] <;> simp
  · unfold scheduleAnimationFrame
    rw [if_neg (fun hcon => by rw [h] at hcon; cases hcon.1)]
  · rfl

/-- Witness for C8: the empty trace, and a state with a registration
outstanding on which scheduling is a no-op. -/
theorem c8_witness :
    (DirState.mk [] none true (some 1) true false none 0 [1] 2 []).animId =
      some 1 ∧
    ((run [] (initState true false none)).pending.length ≤ 1 ∧
      scheduleAnimationFrame
        (DirState.mk [] none true (some 1) true false none 0 [1] 2 []) =
        DirState.mk [] none true (some 1) true false none 0 [1] 2 [] ∧
      doAnimationFrame 3
        (DirState.mk [] none true (some 1) true false none 0 [1] 2 []) =
        doAnimationFrame 3
          { DirState.mk [] none true (some 1) true false none 0 [1] 2 [] with
            animId := none }) :=
  ⟨rfl, c8_never_double_schedules [] false true none
    (DirState.mk [] none true (some 1) true false none 0 [1] 2 []) 1 3 rfl⟩

/-- C9 counterexample: with a duration of 0, the very first tick after
`startTime` is set has `elapsed = 0`, and under IEEE-754 arithmetic the
quotient `0/0` is `NaN`; `Math.min(1, NaN)` is `NaN`, so existence becomes
`NaN` — it does not jump to the boundary value (1 for entering, 0 for
leaving) on that tick. -/
theorem c9_counterexample :
    enteringExistence 0 0 = JsVal.nan ∧
    enteringExistence 0 0 ≠ JsVal.num 1 ∧
    leavingExistence 0 0 = JsVal.nan ∧
    leavingExistence 0 0 ≠ JsVal.num 0 := by
  refine ⟨rfl, ?_, rfl, ?_⟩ <;> intro hcon <;> cases hcon

/-- C9 (amended): with a duration of 0, the tick at which `startTime` is
assigned has `elapsed = 0` and computes `0/0 = NaN`, so existence becomes
`NaN` rather than the boundary value; the jump to the boundary (1 for
entering, 0 for leaving) happens only at a tick with `elapsed > 0`, where
`elapsed/0 = +Infinity` and the `min` clamp yields 1. -/
theorem c9_zero_duration (x : ℚ) (hx : 0 < x) :
    enteringExistence x 0 = JsVal.num 1 ∧
    leavingExistence x 0 = JsVal.num 0 ∧
    enteringExistence 0 0 = JsVal.nan ∧
    leavingExistence 0 0 = JsVal.nan := by
  have hdiv : jsDiv (JsVal.num x) (JsVal.num 0) = JsVal.posInf := by
    unfold jsDiv
    dsimp only
    rw [if_pos rfl, if_neg hx.ne', if_pos hx]
  refine ⟨?_, ?_, rfl, rfl⟩
  · unfold enteringExistence
    rw [hdiv]
    rfl
  · unfold leavingExistence
    rw [hdiv]
    show JsVal.num (1 - 1) = JsVal.num 0
    norm_num

/-- Witness for C9 (amended) at elapsed 1. -/
theorem c9_witness :
    (0 : ℚ) < 1 ∧
    (enteringExistence 1 0 = JsVal.num 1 ∧
      leavingExistence 1 0 = JsVal.num 0 ∧
      enteringExistence 0 0 = JsVal.nan ∧
      leavingExistence 0 0 = JsVal.nan) :=
  ⟨by norm_num, c9_zero_duration 1 (by norm_num)⟩

/-- C10: In a state satisfying the reachable-state invariant, with a frame
driver present, retiring the current instance while it is `here` turns it
into `leaving` with `startTime` still undefined and existence still 1 (both
guaranteed by the invariant for a `here` instance), and schedules a frame;
on the next tick at clock `c`, `startTime` is assigned `c` and the leave
formula starts the full leave animation from existence exactly 1, with
another tick requested. -/
theorem c10_here_retirement
    (s : DirState) (cid : Nat) (e : Entry) (cur : Option Nat) (c : ℚ)
    (hA : InvA s) (hw : s.window = true)
    (hcur : s.current = some cid) (hfind : findEntry s cid = some e)
    (hst : e.context.state = AState.here)
    (hL : 0 < e.context.timings.leave) :
    e.context.startTime = none ∧
    e.context.existence = 1 ∧
    findEntry (removeCurrent s) cid =
      some { e with context := { e.context with state := AState.leaving } } ∧
    (removeCurrent s).animId.isSome = true ∧
    (processEntry cur c { e with context :=
        { e.context with state := AState.leaving } }).entry.context.startTime
      = some c ∧
    (processEntry cur c { e with context :=
        { e.context with state := AState.leaving } }).entry.context.existence
      = 1 ∧
    (processEntry cur c { e with context :=
        { e.context with state := AState.leaving } }).entry.context.state
      = AState.leaving ∧
    (processEntry cur c { e with context :=
        { e.context with state := AState.leaving } }).remove = false ∧
    (processEntry cur c { e with context :=
        { e.context with state := AState.leaving } }).another = true := by
  obtain ⟨hemem, _⟩ := findEntry_spec hfind
  obtain ⟨_, hex1, hstn⟩ := hA.hereProps e hemem hst
  have hsched : ∀ X : DirState, X.window = true →
      (scheduleAnimationFrame X).animId.isSome = true := by
    intro X hXw
    unfold scheduleAnimationFrame
    split
    · rfl
    next hcond =>
      cases hX : X.animId with
      | none => exact absurd ⟨hX, hXw⟩ hcond
      | some tk => rfl
  have hrc : findEntry (removeCurrent s) cid =
      some { e with context := { e.context with state := AState.leaving } } ∧
      (removeCurrent s).animId.isSome = true := by
    unfold removeCurrent
    rw [hcur]
    dsimp only
    rw [if_pos hw, hfind]
    dsimp only
    rw [if_pos hst]
    constructor
    · show findEntry (scheduleAnimationFrame (setContextState cid
        AState.leaving s)) cid = _
      rw [findEntry_scheduleAnimationFrame]
      exact findEntry_setContextState AState.leaving hfind
    · exact hsched _ hw
  have htick :
      (processEntry cur c { e with context :=
        { e.context with state := AState.leaving } }).entry.context.startTime
        = some c ∧
      (processEntry cur c { e with context :=
        { e.context with state := AState.leaving } }).entry.context.existence
        = 1 ∧
      (processEntry cur c { e with context :=
        { e.context with state := AState.leaving } }).entry.context.state
        = AState.leaving ∧
      (processEntry cur c { e with context :=
        { e.context with state := AState.leaving } }).remove = false ∧
      (processEntry cur c { e with context :=
        { e.context with state := AState.leaving } }).another = true := by
    unfold processEntry
    dsimp only
    rw [tickContext_leaving _ _ _ rfl]
    dsimp only
    rw [show ({ e with context := { e.context with
        state := AState.leaving } } : Entry).context.startTime = none
      from hstn]
    simp only [Option.getD_none]
    have hval : 1 - min 1 ((c - c) / e.context.timings.leave) = 1 := by
      rw [sub_self, zero_div, min_eq_right (by norm_num : (0:ℚ) ≤ 1)]
      norm_num
    rw [hval, if_neg (by norm_num : ¬ (1 : ℚ) ≤ 0)]
    exact ⟨rfl, rfl, rfl, rfl, rfl⟩
  exact ⟨hstn, hex1, hrc.1, hrc.2, htick.1, htick.2.1, htick.2.2.1,
    htick.2.2.2.1, htick.2.2.2.2⟩

/-- Witness for C10: a concrete reachable-shape state holding one fully
present `here` instance, retired and then ticked at clock 7. -/
theorem c10_witness :
    InvA (DirState.mk [Entry.mk 0 (AnimateByContext.mk 5 AState.here 1
        (AnimateByTimings.mk 100 50) none)] (some 0) true none true false
        none 1 [] 1 []) ∧
    (DirState.mk [Entry.mk 0 (AnimateByContext.mk 5 AState.here 1
        (AnimateByTimings.mk 100 50) none)] (some 0) true none true false
        none 1 [] 1 []).window = true ∧
    (DirState.mk [Entry.mk 0 (AnimateByContext.mk 5 AState.here 1
        (AnimateByTimings.mk 100 50) none)] (some 0) true none true false
        none 1 [] 1 []).current = some 0 ∧
    findEntry (DirState.mk [Entry.mk 0 (AnimateByContext.mk 5 AState.here 1
        (AnimateByTimings.mk 100 50) none)] (some 0) true none true false
        none 1 [] 1 []) 0 = some (Entry.mk 0 (AnimateByContext.mk 5 AState.here 1
        (AnimateByTimings.mk 100 50) none)) ∧
    (Entry.mk 0 (AnimateByContext.mk 5 AState.here 1
        (AnimateByTimings.mk 100 50) none)).context.state = AState.here ∧
    (0 : ℚ) < 50 ∧
    ((Entry.mk 0 (AnimateByContext.mk 5 AState.here 1
        (AnimateByTimings.mk 100 50) none)).context.startTime = none ∧
    (Entry.mk 0 (AnimateByContext.mk 5 AState.here 1
        (AnimateByTimings.mk 100 50) none)).context.existence = 1 ∧
    findEntry (removeCurrent (DirState.mk [Entry.mk 0 (AnimateByContext.mk 5 AState.here 1
        (AnimateByTimings.mk 100 50) none)] (some 0) true none true false
        none 1 [] 1 [])) 0 =
      some { (Entry.mk 0 (AnimateByContext.mk 5 AState.here 1
        (AnimateByTimings.mk 100 50) none)) with context :=
        { (AnimateByContext.mk 5 AState.here 1
          (AnimateByTimings.mk 100 50) none) with
          state := AState.leaving } } ∧
    (removeCurrent (DirState.mk [Entry.mk 0 (AnimateByContext.mk 5 AState.here 1
        (AnimateByTimings.mk 100 50) none)] (some 0) true none true false
        none 1 [] 1 [])).animId.isSome = true ∧
    (processEntry none 7 { (Entry.mk 0 (AnimateByContext.mk 5 AState.here 1
        (AnimateByTimings.mk 100 50) none)) with context :=
        { (AnimateByContext.mk 5 AState.here 1
          (AnimateByTimings.mk 100 50) none) with
          state := AState.leaving } }).entry.context.startTime = some 7 ∧
    (processEntry none 7 { (Entry.mk 0 (AnimateByContext.mk 5 AState.here 1
        (AnimateByTimings.mk 100 50) none)) with context :=
        { (AnimateByContext.mk 5 AState.here 1
          (AnimateByTimings.mk 100 50) none) with
          state := AState.leaving } }).entry.context.existence = 1 ∧
    (processEntry none 7 { (Entry.mk 0 (AnimateByContext.mk 5 AState.here 1
        (AnimateByTimings.mk 100 50) none)) with context :=
        { (AnimateByContext.mk 5 AState.here 1
          (AnimateByTimings.mk 100 50) none) with
          state := AState.leaving } }).entry.context.state = AState.leaving ∧
    (processEntry none 7 { (Entry.mk 0 (AnimateByContext.mk 5 AState.here 1
        (AnimateByTimings.mk 100 50) none)) with context :=
        { (AnimateByContext.mk 5 AState.here 1
          (AnimateByTimings.mk 100 50) none) with
          state := AState.leaving } }).remove = false ∧
    (processEntry none 7 { (Entry.mk 0 (AnimateByContext.mk 5 AState.here 1
        (AnimateByTimings.mk 100 50) none)) with context :=
        { (AnimateByContext.mk 5 AState.here 1
          (AnimateByTimings.mk 100 50) none) with
          state := AState.leaving } }).another = true) := by
  have hA : InvA (DirState.mk [Entry.mk 0 (AnimateByContext.mk 5 AState.here 1
        (AnimateByTimings.mk 100 50) none)] (some 0) true none true false
        none 1 [] 1 []) := by
    refine ⟨List.pairwise_singleton _ _, ?_, ?_, ?_, ?_, ?_⟩
    · intro a ha
      rw [List.mem_singleton] at ha
      subst ha
      decide
    · intro a ha hsta
      rw [List.mem_singleton] at ha
      subst ha
      exact ⟨rfl, rfl, rfl⟩
    · intro tk ht
      cases ht
    · intro _
      rfl
    · intro hcon
      cases hcon
  exact ⟨hA, rfl, rfl, rfl, rfl, by norm_num,
    c10_here_retirement (DirState.mk [Entry.mk 0 (AnimateByContext.mk 5 AState.here 1
        (AnimateByTimings.mk 100 50) none)] (some 0) true none true false
        none 1 [] 1 []) 0 (Entry.mk 0 (AnimateByContext.mk 5 AState.here 1
        (AnimateByTimings.mk 100 50) none)) none 7 hA rfl rfl rfl rfl (by norm_num)⟩

end AnimateBy
